import Mathlib

/-!
# Verification of the modular pipeline system's concurrency substrate

Shallow embedding of the C sources:
* `src/plugins/sync/monitor.c` — the sticky monitor primitive;
* `src/plugins/sync/consumer_producer.c` — the bounded producer/consumer queue;
* `src/plugins/plugin_common.c` — the stage worker loop and attach protocol;
* `src/main.c` — the controller's attach step (`stage4_attach_plugins`).

Blocking operations (`put` on a full queue, `get` on an empty unfinished
queue, `wait_finished` before drain) are modelled by an explicit list of
environment actions: each time the C code releases the state lock and sleeps
on a monitor inside a wait loop, one environment action — the state effect of
a concurrent `get` or `signal_finished` — is applied to the queue, after
which the loop re-acquires the lock and re-checks its predicate, exactly as
the source does.  An exhausted action list leaves the operation `blocked`,
modelling a thread that is still waiting.
-/

namespace Pipeline

/-- The sticky monitor of `monitor.c`: a `signaled` flag guarded by a mutex
and condition variable.  Only the flag state matters for the embedding. -/
structure monitor_t where
  initialized : Bool
  signaled : Bool
deriving DecidableEq

/-- `monitor_signal` (monitor.c lines 77-103): set the flag, wake all waiters.
No-op on an uninitialized monitor. -/
def monitor_signal (m : monitor_t) : monitor_t :=
  if m.initialized = false then m else { m with signaled := true }

/-- `monitor_reset` (monitor.c lines 109-131): clear the flag, wake nobody.
No-op on an uninitialized monitor. -/
def monitor_reset (m : monitor_t) : monitor_t :=
  if m.initialized = false then m else { m with signaled := false }

/-- A ready monitor as produced by `monitor_init`. -/
def monitor_fresh : monitor_t := { initialized := true, signaled := false }

/-- The bounded queue of `consumer_producer.c`.  `items` is the circular
buffer (`calloc`'d to `NULL`s, a slot holds `none` when it holds no string),
`head`/`tail`/`count` the circular-buffer indices, and the three sticky
monitors coordinate not-full, not-empty and drained waiters. -/
structure consumer_producer_t where
  items : List (Option String)
  count : Nat
  head : Nat
  tail : Nat
  capacity : Nat
  initialized : Bool
  finished_flag : Bool
  not_full_monitor : monitor_t
  not_empty_monitor : monitor_t
  finished_monitor : monitor_t
deriving DecidableEq

/-- A queue struct that was never initialized (all-zero memory). -/
def fresh_queue : consumer_producer_t :=
  { items := [], count := 0, head := 0, tail := 0, capacity := 0,
    initialized := false, finished_flag := false,
    not_full_monitor := { initialized := false, signaled := false },
    not_empty_monitor := { initialized := false, signaled := false },
    finished_monitor := { initialized := false, signaled := false } }

/-- `INT_MAX` of the 32-bit `int` used by the C code. -/
def INT_MAX : Int := 2 ^ 31 - 1

/-- `queue_is_full` (consumer_producer.c lines 394-398). -/
def queue_is_full (q : consumer_producer_t) : Bool :=
  q.count = q.capacity

/-- `queue_is_empty` (consumer_producer.c lines 405-409). -/
def queue_is_empty (q : consumer_producer_t) : Bool :=
  q.count = 0

/-- `consumer_producer_init` (consumer_producer.c lines 13-80).  The NULL
pointer check has no counterpart: the struct itself is the receiver.
`sizeof(char*)` is 8. -/
def consumer_producer_init (queue : consumer_producer_t) (capacity : Int) :
    Except String consumer_producer_t :=
  if capacity ≤ 0 then .error "Invalid queue capacity"
  else if queue.initialized = true then .error "Queue already initialized"
  else if capacity > INT_MAX / 8 then .error "Queue capacity too large"
  else .ok
    { items := List.replicate capacity.toNat none,
      count := 0, head := 0, tail := 0, capacity := capacity.toNat,
      initialized := true, finished_flag := false,
      not_full_monitor := monitor_fresh,
      not_empty_monitor := monitor_fresh,
      finished_monitor := monitor_fresh }

/-- The insert critical section of `consumer_producer_put` (lines 194-203):
store the item at `tail`, advance `tail`, bump `count`, then (after
unlocking) signal `not_empty`. -/
def put_critical (q : consumer_producer_t) (item : String) : consumer_producer_t :=
  { q with items := q.items.set q.tail (some item),
           tail := (q.tail + 1) % q.capacity,
           count := q.count + 1,
           not_empty_monitor := monitor_signal q.not_empty_monitor }

/-- The dequeue critical section of `consumer_producer_get` (lines 255-274):
take the slot at `head` (the code NULLs the slot defensively), advance
`head`, decrement `count`, signal `not_full`, and signal the drained
(`finished`) monitor when the dequeue emptied a finished queue. -/
def get_critical (q : consumer_producer_t) : Option String × consumer_producer_t :=
  let item := q.items.getD q.head none
  let q1 := { q with items := q.items.set q.head none,
                     head := (q.head + 1) % q.capacity,
                     count := q.count - 1 }
  let became_empty := q1.count = 0 ∧ q1.finished_flag = true
  let q2 := { q1 with not_full_monitor := monitor_signal q1.not_full_monitor }
  let q3 := if became_empty
            then { q2 with finished_monitor := monitor_signal q2.finished_monitor }
            else q2
  (item, q3)

/-- `consumer_producer_signal_finished` (consumer_producer.c lines 285-317):
no-op on a NULL/uninitialized queue; early return when already finished;
otherwise set the flag and signal the drained and not-empty monitors. -/
def consumer_producer_signal_finished (q : consumer_producer_t) : consumer_producer_t :=
  if q.initialized ≠ true then q
  else if q.finished_flag = true then q
  else
    let q1 := { q with finished_flag := true }
    { q1 with finished_monitor := monitor_signal q1.finished_monitor,
              not_empty_monitor := monitor_signal q1.not_empty_monitor }

/-- State effects other threads can apply to the queue while an operation is
parked inside one of its wait loops: the effect of a concurrent successful
`get` (a no-op when there is nothing to dequeue) or of a concurrent
`signal_finished`. -/
inductive EnvAction where
  | envGet
  | envSignalFinished
deriving DecidableEq

/-- Apply one environment action to the queue state. -/
def env_apply (q : consumer_producer_t) : EnvAction → consumer_producer_t
  | .envGet => if q.initialized = true ∧ q.count ≠ 0 then (get_critical q).2 else q
  | .envSignalFinished => consumer_producer_signal_finished q

/-- Outcome of `consumer_producer_put`: the returned `const char*` (NULL on
success) together with the queue state; `blocked` is a put still parked in
the full-wait loop. -/
inductive PutResult where
  | ok : consumer_producer_t → PutResult
  | err : String → consumer_producer_t → PutResult
  | blocked : consumer_producer_t → PutResult
deriving DecidableEq

/-- The full-wait loop of `consumer_producer_put` (lines 172-192) followed by
the insert (lines 194-206): while full, reset `not_full`, drop the lock,
sleep (one environment action happens), re-lock and re-check.  The source
deliberately does NOT re-check `finished_flag` here (line 190's comment): a
put that entered the loop is allowed to complete. -/
def put_wait_loop (q : consumer_producer_t) (item : String) :
    List EnvAction → PutResult
  | [] =>
    if queue_is_full q then
      .blocked { q with not_full_monitor := monitor_reset q.not_full_monitor }
    else .ok (put_critical q item)
  | a :: rest =>
    if queue_is_full q then
      put_wait_loop
        (env_apply { q with not_full_monitor := monitor_reset q.not_full_monitor } a)
        item rest
    else .ok (put_critical q item)

/-- `consumer_producer_put` (consumer_producer.c lines 144-207).  A NULL item
is `none`.  The `finished_flag` test appears twice exactly as in the source:
once before taking the state lock (line 156) and once again under it
(line 167); in this sequential embedding nothing can interleave between the
two. -/
def consumer_producer_put (q : consumer_producer_t) :
    Option String → List EnvAction → PutResult
  | none, _ => .err "Item pointer is NULL" q
  | some s, env =>
    if q.initialized ≠ true then .err "Queue not initialized" q
    else if q.finished_flag = true then .err "Cannot add item after finished signal" q
    else if q.finished_flag = true then .err "Cannot add item after finished signal" q
    else put_wait_loop q s env

theorem consumer_producer_put_some (q : consumer_producer_t) (s : String)
    (env : List EnvAction) :
    consumer_producer_put q (some s) env =
      (if q.initialized ≠ true then .err "Queue not initialized" q
       else if q.finished_flag = true then .err "Cannot add item after finished signal" q
       else if q.finished_flag = true then .err "Cannot add item after finished signal" q
       else put_wait_loop q s env) := rfl

/-- Outcome of `consumer_producer_get`: an item with ownership, a NULL
return, or a get still parked in the empty-wait loop. -/
inductive GetResult where
  | got : String → consumer_producer_t → GetResult
  | noItem : consumer_producer_t → GetResult
  | blocked : consumer_producer_t → GetResult
deriving DecidableEq

/-- The empty-wait loop of `consumer_producer_get` (lines 230-247) followed
by the drained check (line 250) and the dequeue.  The defensive `noItem`
arm models the C code returning a NULL slot content as its item. -/
def get_after_wait (q : consumer_producer_t) : GetResult :=
  if queue_is_empty q ∧ q.finished_flag = true then .noItem q
  else
    match get_critical q with
    | (some s, q2) => .got s q2
    | (none, q2) => .noItem q2

def get_wait_loop (q : consumer_producer_t) : List EnvAction → GetResult
  | [] =>
    if queue_is_empty q ∧ q.finished_flag = false then
      .blocked { q with not_empty_monitor := monitor_reset q.not_empty_monitor }
    else get_after_wait q
  | a :: rest =>
    if queue_is_empty q ∧ q.finished_flag = false then
      get_wait_loop
        (env_apply { q with not_empty_monitor := monitor_reset q.not_empty_monitor } a)
        rest
    else get_after_wait q

/-- `consumer_producer_get` (consumer_producer.c lines 214-278). -/
def consumer_producer_get (q : consumer_producer_t) (env : List EnvAction) : GetResult :=
  if q.initialized ≠ true then .noItem q
  else get_wait_loop q env

/-- Outcome of `consumer_producer_wait_finished`: `success` is return 0,
`failure` return -1 on validation, `blocked` a waiter still parked. -/
inductive WaitResult where
  | success : consumer_producer_t → WaitResult
  | failure : consumer_producer_t → WaitResult
  | blocked : consumer_producer_t → WaitResult
deriving DecidableEq

/-- Phase 2 of `consumer_producer_wait_finished` (lines 366-382): wait until
`count` reaches 0, each iteration doing reset/wait on the drained
(`finished`) monitor. -/
def wait_phase2 (q : consumer_producer_t) : List EnvAction → WaitResult
  | [] =>
    if q.count > 0 then
      .blocked { q with finished_monitor := monitor_reset q.finished_monitor }
    else .success q
  | a :: rest =>
    if q.count > 0 then
      wait_phase2
        (env_apply { q with finished_monitor := monitor_reset q.finished_monitor } a)
        rest
    else .success q

/-- Phase 1 of `consumer_producer_wait_finished` (lines 346-363): wait until
`finished_flag` is set, each iteration doing reset/wait on the drained
(`finished`) monitor, then fall through to phase 2. -/
def wait_phase1 (q : consumer_producer_t) : List EnvAction → WaitResult
  | [] =>
    if q.finished_flag = false then
      .blocked { q with finished_monitor := monitor_reset q.finished_monitor }
    else wait_phase2 q []
  | a :: rest =>
    if q.finished_flag = false then
      wait_phase1
        (env_apply { q with finished_monitor := monitor_reset q.finished_monitor } a)
        rest
    else wait_phase2 q (a :: rest)

/-- `consumer_producer_wait_finished` (consumer_producer.c lines 324-387):
validation, the fast path for `finished ∧ count == 0` (lines 340-343), then
the two wait phases. -/
def consumer_producer_wait_finished (q : consumer_producer_t)
    (env : List EnvAction) : WaitResult :=
  if q.initialized ≠ true then .failure q
  else if q.finished_flag = true ∧ q.count = 0 then .success q
  else wait_phase1 q env

/-- The queue state carried by each result constructor. -/
def PutResult.state : PutResult → consumer_producer_t
  | .ok q => q
  | .err _ q => q
  | .blocked q => q

/-- The queue state carried by each result constructor. -/
def GetResult.state : GetResult → consumer_producer_t
  | .got _ q => q
  | .noItem q => q
  | .blocked q => q

/-- The queue state carried by each result constructor. -/
def WaitResult.state : WaitResult → consumer_producer_t
  | .success q => q
  | .failure q => q
  | .blocked q => q

/-- The logical content of the circular buffer: the `count` slots starting
at `head`, oldest first. -/
def queueItemsOpt (q : consumer_producer_t) : List (Option String) :=
  (List.range q.count).map (fun i => q.items.getD ((q.head + i) % q.capacity) none)

/-- Structural well-formedness of an initialized queue, established by
`consumer_producer_init` and preserved by every operation. -/
def QueueWF (q : consumer_producer_t) : Prop :=
  q.items.length = q.capacity ∧ q.head < q.capacity ∧
  q.count ≤ q.capacity ∧ q.tail = (q.head + q.count) % q.capacity

/-!
## Circular-buffer lemmas

`queueItemsOpt` turns the `head`/`tail`/`count` circular buffer into the
abstract list of queued slots; the lemmas below show that the critical
sections of `put` and `get` act on that list as append and pop.
-/

theorem queueItemsOpt_congr {q r : consumer_producer_t}
    (hitems : q.items = r.items) (hcount : q.count = r.count)
    (hhead : q.head = r.head) (hcap : q.capacity = r.capacity) :
    queueItemsOpt q = queueItemsOpt r := by
  unfold queueItemsOpt
  rw [hitems, hcount, hhead, hcap]

theorem queueItemsOpt_length (q : consumer_producer_t) :
    (queueItemsOpt q).length = q.count := by
  simp [queueItemsOpt]

theorem capacity_pos_of_WF {q : consumer_producer_t} (h : QueueWF q) :
    0 < q.capacity :=
  Nat.lt_of_le_of_lt (Nat.zero_le _) h.2.1

theorem put_critical_fields (q : consumer_producer_t) (s : String) :
    (put_critical q s).items = q.items.set q.tail (some s) ∧
    (put_critical q s).count = q.count + 1 ∧
    (put_critical q s).head = q.head ∧
    (put_critical q s).tail = (q.tail + 1) % q.capacity ∧
    (put_critical q s).capacity = q.capacity ∧
    (put_critical q s).initialized = q.initialized ∧
    (put_critical q s).finished_flag = q.finished_flag := by
  simp [put_critical]

theorem get_critical_fst (q : consumer_producer_t) :
    (get_critical q).1 = q.items.getD q.head none := by
  simp [get_critical]

theorem get_critical_snd_fields (q : consumer_producer_t) :
    (get_critical q).2.items = q.items.set q.head none ∧
    (get_critical q).2.count = q.count - 1 ∧
    (get_critical q).2.head = (q.head + 1) % q.capacity ∧
    (get_critical q).2.tail = q.tail ∧
    (get_critical q).2.capacity = q.capacity ∧
    (get_critical q).2.initialized = q.initialized ∧
    (get_critical q).2.finished_flag = q.finished_flag := by
  unfold get_critical
  dsimp only
  by_cases h : (q.count - 1 = 0 ∧ q.finished_flag = true) <;> simp [h]

theorem put_critical_queueItems {q : consumer_producer_t} (s : String)
    (hwf : QueueWF q) (hlt : q.count < q.capacity) :
    queueItemsOpt (put_critical q s) = queueItemsOpt q ++ [some s] := by
  obtain ⟨hlen, hhead, hcount, htail⟩ := hwf
  have hcap : 0 < q.capacity := Nat.lt_of_le_of_lt (Nat.zero_le _) hhead
  have hfields := put_critical_fields q s
  unfold queueItemsOpt
  rw [hfields.1, hfields.2.1, hfields.2.2.1, hfields.2.2.2.2.1]
  rw [List.range_succ, List.map_append]
  congr 1
  · apply List.map_congr_left
    intro i hi
    have hi' : i < q.count := List.mem_range.mp hi
    have hne : q.tail ≠ (q.head + i) % q.capacity := by
      intro heq
      have hmod : (q.head + q.count) % q.capacity = (q.head + i) % q.capacity := by
        rw [← htail, heq]
      have hcong : q.count % q.capacity = i % q.capacity :=
        Nat.ModEq.add_left_cancel' q.head hmod
      rw [Nat.mod_eq_of_lt hlt, Nat.mod_eq_of_lt (Nat.lt_trans hi' hlt)] at hcong
      omega
    simp [List.getD_eq_getElem?_getD, List.getElem?_set_ne hne]
  · have htail_lt : q.tail < q.items.length := by
      rw [hlen, htail]
      exact Nat.mod_lt _ hcap
    have : (q.head + q.count) % q.capacity = q.tail := htail.symm
    simp [this, List.getD_eq_getElem?_getD, List.getElem?_set_self, htail_lt]

theorem put_critical_WF {q : consumer_producer_t} (s : String)
    (hwf : QueueWF q) (hlt : q.count < q.capacity) :
    QueueWF (put_critical q s) := by
  obtain ⟨hlen, hhead, hcount, htail⟩ := hwf
  have hfields := put_critical_fields q s
  refine ⟨?_, ?_, ?_, ?_⟩
  · rw [hfields.1, List.length_set, hlen, hfields.2.2.2.2.1]
  · rw [hfields.2.2.1, hfields.2.2.2.2.1]; exact hhead
  · rw [hfields.2.1, hfields.2.2.2.2.1]; omega
  · rw [hfields.2.2.2.1, hfields.2.2.1, hfields.2.1, hfields.2.2.2.2.1, htail,
        Nat.mod_add_mod, ← Nat.add_assoc]

theorem get_critical_queueItems {q : consumer_producer_t}
    (hwf : QueueWF q) (hpos : 0 < q.count) :
    queueItemsOpt q = (get_critical q).1 :: queueItemsOpt (get_critical q).2 := by
  obtain ⟨hlen, hhead, hcount, htail⟩ := hwf
  have hcap : 0 < q.capacity := Nat.lt_of_le_of_lt (Nat.zero_le _) hhead
  have hfields := get_critical_snd_fields q
  rw [get_critical_fst]
  unfold queueItemsOpt
  rw [hfields.1, hfields.2.1, hfields.2.2.1, hfields.2.2.2.2.1]
  have hsplit : q.count = (q.count - 1) + 1 := by omega
  rw [hsplit, List.range_succ_eq_map, List.map_cons, List.map_map]
  congr 1
  · rw [Nat.add_zero, Nat.mod_eq_of_lt hhead]
  · apply List.map_congr_left
    intro i hi
    have hi' : i < q.count - 1 := List.mem_range.mp hi
    have hidx : ((q.head + 1) % q.capacity + i) % q.capacity =
        (q.head + (1 + i)) % q.capacity := by
      rw [Nat.mod_add_mod, Nat.add_assoc]
    have hne : q.head ≠ (q.head + (1 + i)) % q.capacity := by
      intro heq
      have h0 : (q.head + 0) % q.capacity = (q.head + (1 + i)) % q.capacity := by
        rw [Nat.add_zero, Nat.mod_eq_of_lt hhead]; exact heq
      have hcong : 0 % q.capacity = (1 + i) % q.capacity :=
        Nat.ModEq.add_left_cancel' q.head h0
      have h1i : 1 + i < q.capacity := by omega
      rw [Nat.zero_mod, Nat.mod_eq_of_lt h1i] at hcong
      omega
    have harg : q.head + Nat.succ i = q.head + (1 + i) := by omega
    simp only [Function.comp, hidx, harg]
    simp [List.getD_eq_getElem?_getD, List.getElem?_set_ne hne]

theorem get_critical_WF {q : consumer_producer_t}
    (hwf : QueueWF q) (hpos : 0 < q.count) :
    QueueWF (get_critical q).2 := by
  obtain ⟨hlen, hhead, hcount, htail⟩ := hwf
  have hcap : 0 < q.capacity := Nat.lt_of_le_of_lt (Nat.zero_le _) hhead
  have hfields := get_critical_snd_fields q
  refine ⟨?_, ?_, ?_, ?_⟩
  · rw [hfields.1, List.length_set, hlen, hfields.2.2.2.2.1]
  · rw [hfields.2.2.1, hfields.2.2.2.2.1]; exact Nat.mod_lt _ hcap
  · rw [hfields.2.1, hfields.2.2.2.2.1]; omega
  · rw [hfields.2.2.2.1, hfields.2.2.1, hfields.2.1, hfields.2.2.2.2.1, htail,
        Nat.mod_add_mod]
    congr 1
    omega

/-!
## Invariance lemmas for `signal_finished`, environment actions and the
`put` wait loop
-/

/-- Items in live slots of a reachable queue are never NULL. -/
def QueueInv (q : consumer_producer_t) : Prop :=
  QueueWF q ∧ ∀ x ∈ queueItemsOpt q, x ≠ none

theorem signal_finished_fields (q : consumer_producer_t) :
    (consumer_producer_signal_finished q).items = q.items ∧
    (consumer_producer_signal_finished q).count = q.count ∧
    (consumer_producer_signal_finished q).head = q.head ∧
    (consumer_producer_signal_finished q).tail = q.tail ∧
    (consumer_producer_signal_finished q).capacity = q.capacity ∧
    (consumer_producer_signal_finished q).initialized = q.initialized := by
  unfold consumer_producer_signal_finished
  by_cases hi : q.initialized ≠ true <;> by_cases hf : q.finished_flag = true <;>
    simp [hi, hf]

theorem signal_finished_mono {q : consumer_producer_t}
    (h : q.finished_flag = true) :
    (consumer_producer_signal_finished q).finished_flag = true := by
  unfold consumer_producer_signal_finished
  by_cases hi : q.initialized ≠ true <;> simp [hi, h]

theorem signal_finished_queueItems (q : consumer_producer_t) :
    queueItemsOpt (consumer_producer_signal_finished q) = queueItemsOpt q := by
  have h := signal_finished_fields q
  exact queueItemsOpt_congr h.1 h.2.1 h.2.2.1 h.2.2.2.2.1

theorem signal_finished_WF {q : consumer_producer_t} (h : QueueWF q) :
    QueueWF (consumer_producer_signal_finished q) := by
  have hf := signal_finished_fields q
  obtain ⟨h1, h2, h3, h4⟩ := h
  exact ⟨by rw [hf.1, hf.2.2.2.2.1, h1], by rw [hf.2.2.1, hf.2.2.2.2.1]; exact h2,
         by rw [hf.2.1, hf.2.2.2.2.1]; exact h3,
         by rw [hf.2.2.2.1, hf.2.2.1, hf.2.1, hf.2.2.2.2.1]; exact h4⟩

theorem env_apply_WF {q : consumer_producer_t} (a : EnvAction) (h : QueueWF q) :
    QueueWF (env_apply q a) := by
  cases a with
  | envGet =>
    simp only [env_apply]
    split
    · next hc => exact get_critical_WF h (by omega)
    · exact h
  | envSignalFinished => exact signal_finished_WF h

theorem env_apply_inv {q : consumer_producer_t} (a : EnvAction) (h : QueueInv q) :
    QueueInv (env_apply q a) := by
  obtain ⟨hwf, hitems⟩ := h
  cases a with
  | envGet =>
    simp only [env_apply]
    split
    · next hc =>
      have hpos : 0 < q.count := by omega
      refine ⟨get_critical_WF hwf hpos, ?_⟩
      intro x hx
      exact hitems x (by rw [get_critical_queueItems hwf hpos]; exact List.mem_cons_of_mem _ hx)
    · exact ⟨hwf, hitems⟩
  | envSignalFinished =>
    simp only [env_apply]
    refine ⟨signal_finished_WF hwf, ?_⟩
    intro x hx
    rw [signal_finished_queueItems] at hx
    exact hitems x hx

theorem env_apply_count_le {q : consumer_producer_t} (a : EnvAction)
    (h : q.count ≤ q.capacity) :
    (env_apply q a).count ≤ (env_apply q a).capacity := by
  cases a with
  | envGet =>
    simp only [env_apply]
    split
    · have hf := get_critical_snd_fields q
      rw [hf.2.1, hf.2.2.2.2.1]
      omega
    · exact h
  | envSignalFinished =>
    simp only [env_apply]
    have hf := signal_finished_fields q
    rw [hf.2.1, hf.2.2.2.2.1]
    exact h

theorem env_apply_capacity (q : consumer_producer_t) (a : EnvAction) :
    (env_apply q a).capacity = q.capacity := by
  cases a with
  | envGet =>
    simp only [env_apply]
    split
    · exact (get_critical_snd_fields q).2.2.2.2.1
    · rfl
  | envSignalFinished =>
    simp only [env_apply]
    exact (signal_finished_fields q).2.2.2.2.1

theorem env_apply_initialized (q : consumer_producer_t) (a : EnvAction) :
    (env_apply q a).initialized = q.initialized := by
  cases a with
  | envGet =>
    simp only [env_apply]
    split
    · exact (get_critical_snd_fields q).2.2.2.2.2.1
    · rfl
  | envSignalFinished =>
    simp only [env_apply]
    exact (signal_finished_fields q).2.2.2.2.2

theorem env_apply_finished_mono {q : consumer_producer_t} (a : EnvAction)
    (h : q.finished_flag = true) :
    (env_apply q a).finished_flag = true := by
  cases a with
  | envGet =>
    simp only [env_apply]
    split
    · rw [(get_critical_snd_fields q).2.2.2.2.2.2]; exact h
    · exact h
  | envSignalFinished =>
    simp only [env_apply]
    exact signal_finished_mono h

theorem put_wait_loop_no_err (s msg : String) :
    ∀ (env : List EnvAction) (q q2 : consumer_producer_t),
      put_wait_loop q s env ≠ .err msg q2 := by
  intro env
  induction env with
  | nil =>
    intro q q2
    unfold put_wait_loop
    split <;> simp
  | cons a rest ih =>
    intro q q2
    unfold put_wait_loop
    split
    · exact ih _ q2
    · simp

theorem put_wait_loop_blocked_full (s : String) :
    ∀ (env : List EnvAction) (q q2 : consumer_producer_t),
      put_wait_loop q s env = .blocked q2 → queue_is_full q2 = true := by
  intro env
  induction env with
  | nil =>
    intro q q2
    unfold put_wait_loop
    split
    · next hfull =>
      intro h
      cases h
      simpa [queue_is_full] using hfull
    · simp
  | cons a rest ih =>
    intro q q2
    unfold put_wait_loop
    split
    · exact ih _ q2
    · simp

theorem put_wait_loop_ok (s : String) :
    ∀ (env : List EnvAction) (q q2 : consumer_producer_t),
      put_wait_loop q s env = .ok q2 →
      ∃ qw, queue_is_full qw = false ∧ q2 = put_critical qw s := by
  intro env
  induction env with
  | nil =>
    intro q q2
    unfold put_wait_loop
    split
    · simp
    · next hfull =>
      intro h
      cases h
      exact ⟨q, by simpa using hfull, rfl⟩
  | cons a rest ih =>
    intro q q2
    unfold put_wait_loop
    split
    · exact ih _ q2
    · next hfull =>
      intro h
      cases h
      exact ⟨q, by simpa using hfull, rfl⟩

theorem put_wait_loop_not_full {q : consumer_producer_t} (s : String)
    (env : List EnvAction) (h : queue_is_full q = false) :
    put_wait_loop q s env = .ok (put_critical q s) := by
  cases env <;> · unfold put_wait_loop; simp [h]

/-!
## Characterization of the `get` wait loop and the two `wait_finished` phases
-/

theorem get_after_wait_empty_finished {q : consumer_producer_t}
    (h0 : q.count = 0) (hf : q.finished_flag = true) :
    get_after_wait q = .noItem q := by
  simp [get_after_wait, queue_is_empty, h0, hf]

theorem get_after_wait_nonempty {q : consumer_producer_t}
    (hInv : QueueInv q) (hz : q.count ≠ 0) :
    ∃ s, q.items.getD q.head none = some s ∧
      get_after_wait q = .got s (get_critical q).2 ∧
      queueItemsOpt q = some s :: queueItemsOpt (get_critical q).2 := by
  have hpos : 0 < q.count := Nat.pos_of_ne_zero hz
  have hhead := get_critical_queueItems hInv.1 hpos
  have hne : (get_critical q).1 ≠ none :=
    hInv.2 _ (by rw [hhead]; exact List.mem_cons_self _ _)
  rw [get_critical_fst] at hne
  obtain ⟨s, hs⟩ := Option.ne_none_iff_exists'.mp hne
  refine ⟨s, hs, ?_, ?_⟩
  · unfold get_after_wait
    rw [if_neg (by simp [queue_is_empty, hz])]
    have heq : get_critical q = (some s, (get_critical q).2) := by
      have hpair : get_critical q = ((get_critical q).1, (get_critical q).2) := rfl
      rw [hpair, get_critical_fst, hs]
    rw [heq]
  · rw [hhead, get_critical_fst, hs]

theorem get_wait_loop_empty_finished {q : consumer_producer_t}
    (h0 : q.count = 0) (hf : q.finished_flag = true) (env : List EnvAction) :
    get_wait_loop q env = .noItem q := by
  cases env <;>
  · unfold get_wait_loop
    rw [if_neg (by simp [hf])]
    exact get_after_wait_empty_finished h0 hf

theorem get_wait_loop_blocked_empty {q : consumer_producer_t}
    (h0 : q.count = 0) (hf : q.finished_flag = false) :
    get_wait_loop q [] =
      .blocked { q with not_empty_monitor := monitor_reset q.not_empty_monitor } := by
  unfold get_wait_loop
  rw [if_pos (by simp [queue_is_empty, h0, hf])]

theorem get_wait_loop_nonempty {q : consumer_producer_t}
    (hInv : QueueInv q) (hz : q.count ≠ 0) (env : List EnvAction) :
    ∃ s, q.items.getD q.head none = some s ∧
      get_wait_loop q env = .got s (get_critical q).2 ∧
      queueItemsOpt q = some s :: queueItemsOpt (get_critical q).2 := by
  obtain ⟨s, hs, hrun, hlist⟩ := get_after_wait_nonempty hInv hz
  refine ⟨s, hs, ?_, hlist⟩
  cases env <;>
  · unfold get_wait_loop
    rw [if_neg (by simp [queue_is_empty, hz])]
    exact hrun

theorem get_wait_loop_spec :
    ∀ (env : List EnvAction) (q : consumer_producer_t), QueueInv q →
      (∀ q2, get_wait_loop q env = .noItem q2 →
        q2.count = 0 ∧ q2.finished_flag = true) ∧
      (∀ s q2, get_wait_loop q env = .got s q2 →
        ∃ qs, QueueInv qs ∧ q2 = (get_critical qs).2 ∧
          queueItemsOpt qs = some s :: queueItemsOpt q2) ∧
      (∀ q2, get_wait_loop q env = .blocked q2 →
        q2.count = 0 ∧ q2.finished_flag = false) := by
  intro env
  induction env with
  | nil =>
    intro q hInv
    by_cases hguard : queue_is_empty q = true ∧ q.finished_flag = false
    · have h0 : q.count = 0 := by simpa [queue_is_empty] using hguard.1
      rw [get_wait_loop_blocked_empty h0 hguard.2]
      refine ⟨?_, ?_, ?_⟩
      · intro q2 h
        cases h
      · intro s q2 h
        cases h
      · intro q2 h
        cases h
        exact ⟨h0, hguard.2⟩
    · by_cases hz : q.count = 0
      · have hf : q.finished_flag = true := by
          by_contra hc
          exact hguard ⟨by simp [queue_is_empty, hz], by simpa using hc⟩
        rw [get_wait_loop_empty_finished hz hf []]
        refine ⟨?_, ?_, ?_⟩
        · intro q2 h
          cases h
          exact ⟨hz, hf⟩
        · intro s q2 h
          cases h
        · intro q2 h
          cases h
      · obtain ⟨s, hs, hrun, hlist⟩ := get_wait_loop_nonempty hInv hz []
        rw [hrun]
        refine ⟨?_, ?_, ?_⟩
        · intro q2 h
          cases h
        · intro t q2 h
          cases h
          exact ⟨q, hInv, rfl, hlist⟩
        · intro q2 h
          cases h
  | cons a rest ih =>
    intro q hInv
    by_cases hguard : queue_is_empty q = true ∧ q.finished_flag = false
    · have hstep : get_wait_loop q (a :: rest) =
          get_wait_loop
            (env_apply { q with not_empty_monitor := monitor_reset q.not_empty_monitor } a)
            rest := by
        rw [get_wait_loop]
        rw [if_pos (by simp [hguard.1, hguard.2])]
      have hInv1 : QueueInv
          { q with not_empty_monitor := monitor_reset q.not_empty_monitor } := by
        obtain ⟨⟨w1, w2, w3, w4⟩, hit⟩ := hInv
        exact ⟨⟨w1, w2, w3, w4⟩, hit⟩
      rw [hstep]
      exact ih _ (env_apply_inv a hInv1)
    · by_cases hz : q.count = 0
      · have hf : q.finished_flag = true := by
          by_contra hc
          exact hguard ⟨by simp [queue_is_empty, hz], by simpa using hc⟩
        rw [get_wait_loop_empty_finished hz hf (a :: rest)]
        refine ⟨?_, ?_, ?_⟩
        · intro q2 h
          cases h
          exact ⟨hz, hf⟩
        · intro s q2 h
          cases h
        · intro q2 h
          cases h
      · obtain ⟨s, hs, hrun, hlist⟩ := get_wait_loop_nonempty hInv hz (a :: rest)
        rw [hrun]
        refine ⟨?_, ?_, ?_⟩
        · intro q2 h
          cases h
        · intro t q2 h
          cases h
          exact ⟨q, hInv, rfl, hlist⟩
        · intro q2 h
          cases h

theorem wait_phase2_success :
    ∀ (env : List EnvAction) (q q2 : consumer_producer_t),
      q.finished_flag = true → wait_phase2 q env = .success q2 →
      q2.finished_flag = true ∧ q2.count = 0 := by
  intro env
  induction env with
  | nil =>
    intro q q2 hf h
    unfold wait_phase2 at h
    split at h
    · cases h
    · next hc =>
      cases h
      exact ⟨hf, by omega⟩
  | cons a rest ih =>
    intro q q2 hf h
    unfold wait_phase2 at h
    split at h
    · exact ih _ q2 (env_apply_finished_mono a (by simpa using hf)) h
    · next hc =>
      cases h
      exact ⟨hf, by omega⟩

theorem wait_phase1_success :
    ∀ (env : List EnvAction) (q q2 : consumer_producer_t),
      wait_phase1 q env = .success q2 →
      q2.finished_flag = true ∧ q2.count = 0 := by
  intro env
  induction env with
  | nil =>
    intro q q2 h
    unfold wait_phase1 at h
    split at h
    · cases h
    · next hc =>
      exact wait_phase2_success [] q q2 (by simpa using hc) h
  | cons a rest ih =>
    intro q q2 h
    unfold wait_phase1 at h
    split at h
    · exact ih _ q2 h
    · next hc =>
      exact wait_phase2_success (a :: rest) q q2 (by simpa using hc) h

/-!
## Preservation of the bounded-count invariant and finished monotonicity
-/

/-- `r` keeps the bounded count, the capacity, and finished monotonicity
relative to `q`. -/
def Pres (q r : consumer_producer_t) : Prop :=
  r.count ≤ r.capacity ∧ r.capacity = q.capacity ∧
  (q.finished_flag = true → r.finished_flag = true)

theorem env_apply_pres {q : consumer_producer_t} (a : EnvAction)
    (h : q.count ≤ q.capacity) : Pres q (env_apply q a) :=
  ⟨env_apply_count_le a h, env_apply_capacity q a, fun hf => env_apply_finished_mono a hf⟩

theorem get_after_wait_state (q : consumer_producer_t) :
    (get_after_wait q).state = q ∨ (get_after_wait q).state = (get_critical q).2 := by
  unfold get_after_wait
  split
  · left; rfl
  · rcases hgc : get_critical q with ⟨i, q2⟩
    right
    cases i <;> simp [GetResult.state]

theorem get_critical_pres {q : consumer_producer_t}
    (h : q.count ≤ q.capacity) : Pres q (get_critical q).2 := by
  have hf := get_critical_snd_fields q
  exact ⟨by rw [hf.2.1, hf.2.2.2.2.1]; omega, hf.2.2.2.2.1,
         by rw [hf.2.2.2.2.2.2]; exact id⟩

theorem put_wait_loop_pres (s : String) :
    ∀ (env : List EnvAction) (q : consumer_producer_t), q.count ≤ q.capacity →
      Pres q (put_wait_loop q s env).state := by
  intro env
  induction env with
  | nil =>
    intro q h
    unfold put_wait_loop
    split
    · exact ⟨h, rfl, fun hf => hf⟩
    · next hfull =>
      have hlt : q.count < q.capacity := by
        have hne : ¬ q.count = q.capacity := by simpa [queue_is_full] using hfull
        omega
      have hf := put_critical_fields q s
      simp only [PutResult.state]
      exact ⟨by rw [hf.2.1, hf.2.2.2.2.1]; omega, hf.2.2.2.2.1,
             by rw [hf.2.2.2.2.2.2]; exact id⟩
  | cons a rest ih =>
    intro q h
    unfold put_wait_loop
    split
    · have hstep := env_apply_pres (q := { q with not_full_monitor := monitor_reset q.not_full_monitor }) a h
      have hrec := ih _ hstep.1
      exact ⟨hrec.1, by rw [hrec.2.1, hstep.2.1], fun hf => hrec.2.2 (hstep.2.2 hf)⟩
    · next hfull =>
      have hlt : q.count < q.capacity := by
        have hne : ¬ q.count = q.capacity := by simpa [queue_is_full] using hfull
        omega
      have hf := put_critical_fields q s
      simp only [PutResult.state]
      exact ⟨by rw [hf.2.1, hf.2.2.2.2.1]; omega, hf.2.2.2.2.1,
             by rw [hf.2.2.2.2.2.2]; exact id⟩

theorem get_wait_loop_pres :
    ∀ (env : List EnvAction) (q : consumer_producer_t), q.count ≤ q.capacity →
      Pres q (get_wait_loop q env).state := by
  intro env
  induction env with
  | nil =>
    intro q h
    unfold get_wait_loop
    split
    · exact ⟨h, rfl, fun hf => hf⟩
    · rcases get_after_wait_state q with hs | hs
      · rw [hs]
        exact ⟨h, rfl, fun hf => hf⟩
      · rw [hs]
        exact get_critical_pres h
  | cons a rest ih =>
    intro q h
    unfold get_wait_loop
    split
    · have hstep := env_apply_pres (q := { q with not_empty_monitor := monitor_reset q.not_empty_monitor }) a h
      have hrec := ih _ hstep.1
      exact ⟨hrec.1, by rw [hrec.2.1, hstep.2.1], fun hf => hrec.2.2 (hstep.2.2 hf)⟩
    · rcases get_after_wait_state q with hs | hs
      · rw [hs]
        exact ⟨h, rfl, fun hf => hf⟩
      · rw [hs]
        exact get_critical_pres h

theorem wait_phase2_pres :
    ∀ (env : List EnvAction) (q : consumer_producer_t), q.count ≤ q.capacity →
      Pres q (wait_phase2 q env).state := by
  intro env
  induction env with
  | nil =>
    intro q h
    unfold wait_phase2
    split
    · exact ⟨h, rfl, fun hf => hf⟩
    · exact ⟨h, rfl, fun hf => hf⟩
  | cons a rest ih =>
    intro q h
    unfold wait_phase2
    split
    · have hstep := env_apply_pres (q := { q with finished_monitor := monitor_reset q.finished_monitor }) a h
      have hrec := ih _ hstep.1
      exact ⟨hrec.1, by rw [hrec.2.1, hstep.2.1], fun hf => hrec.2.2 (hstep.2.2 hf)⟩
    · exact ⟨h, rfl, fun hf => hf⟩

theorem wait_phase1_pres :
    ∀ (env : List EnvAction) (q : consumer_producer_t), q.count ≤ q.capacity →
      Pres q (wait_phase1 q env).state := by
  intro env
  induction env with
  | nil =>
    intro q h
    unfold wait_phase1
    split
    · exact ⟨h, rfl, fun hf => hf⟩
    · exact wait_phase2_pres [] q h
  | cons a rest ih =>
    intro q h
    unfold wait_phase1
    split
    · have hstep := env_apply_pres (q := { q with finished_monitor := monitor_reset q.finished_monitor }) a h
      have hrec := ih _ hstep.1
      exact ⟨hrec.1, by rw [hrec.2.1, hstep.2.1], fun hf => hrec.2.2 (hstep.2.2 hf)⟩
    · exact wait_phase2_pres (a :: rest) q h

theorem signal_finished_pres {q : consumer_producer_t}
    (h : q.count ≤ q.capacity) : Pres q (consumer_producer_signal_finished q) := by
  have hf := signal_finished_fields q
  exact ⟨by rw [hf.2.1, hf.2.2.2.2.1]; exact h, hf.2.2.2.2.1,
         fun hfin => signal_finished_mono hfin⟩

/-!
## Sequential traces over the queue, for the FIFO guarantee

A trace interleaves atomic `put`, `get` and `signal_finished` critical
sections (serialization by the state mutex).  A `put` attempted on a full
queue or after finish does not count as successful; a `get` on an empty
queue returns nothing.
-/

inductive TraceOp where
  | put : String → TraceOp
  | get
  | signal
deriving DecidableEq

structure TraceResult where
  final : consumer_producer_t
  puts : List String
  gets : List String
deriving DecidableEq

/-- Run a trace of serialized queue operations, recording the successfully
put items and the items returned by `get`, both oldest first. -/
def runTrace (q : consumer_producer_t) : List TraceOp → TraceResult
  | [] => { final := q, puts := [], gets := [] }
  | .put s :: rest =>
    match consumer_producer_put q (some s) [] with
    | .ok q2 =>
      let r := runTrace q2 rest
      { r with puts := s :: r.puts }
    | .err _ q2 => runTrace q2 rest
    | .blocked q2 => runTrace q2 rest
  | .get :: rest =>
    match consumer_producer_get q [] with
    | .got s q2 =>
      let r := runTrace q2 rest
      { r with gets := s :: r.gets }
    | .noItem q2 => runTrace q2 rest
    | .blocked q2 => runTrace q2 rest
  | .signal :: rest => runTrace (consumer_producer_signal_finished q) rest

theorem put_critical_inv {q : consumer_producer_t} (s : String)
    (hInv : QueueInv q) (hlt : q.count < q.capacity) :
    QueueInv (put_critical q s) := by
  refine ⟨put_critical_WF s hInv.1 hlt, ?_⟩
  intro x hx
  rw [put_critical_queueItems s hInv.1 hlt] at hx
  rcases List.mem_append.mp hx with h | h
  · exact hInv.2 x h
  · simp at h
    simp [h]

theorem get_critical_inv {q : consumer_producer_t}
    (hInv : QueueInv q) (hpos : 0 < q.count) :
    QueueInv (get_critical q).2 := by
  refine ⟨get_critical_WF hInv.1 hpos, ?_⟩
  intro x hx
  exact hInv.2 x (by
    rw [get_critical_queueItems hInv.1 hpos]
    exact List.mem_cons_of_mem _ hx)

theorem signal_finished_inv {q : consumer_producer_t} (hInv : QueueInv q) :
    QueueInv (consumer_producer_signal_finished q) := by
  refine ⟨signal_finished_WF hInv.1, ?_⟩
  intro x hx
  rw [signal_finished_queueItems] at hx
  exact hInv.2 x hx

theorem runTrace_ledger :
    ∀ (ops : List TraceOp) (q : consumer_producer_t) (pending0 : List String),
      QueueInv q → q.initialized = true → queueItemsOpt q = pending0.map some →
      ∃ leftover,
        pending0 ++ (runTrace q ops).puts = (runTrace q ops).gets ++ leftover ∧
        queueItemsOpt (runTrace q ops).final = leftover.map some := by
  intro ops
  induction ops with
  | nil =>
    intro q pending0 hInv hinit hpend
    exact ⟨pending0, by simp [runTrace], by simpa [runTrace] using hpend⟩
  | cons op rest ih =>
    intro q pending0 hInv hinit hpend
    cases op with
    | put s =>
      by_cases hf : q.finished_flag = true
      · have hput : consumer_producer_put q (some s) [] =
            .err "Cannot add item after finished signal" q := by
          rw [consumer_producer_put_some]
          rw [if_neg (by simp [hinit]), if_pos hf]
        simp only [runTrace, hput]
        exact ih q pending0 hInv hinit hpend
      · by_cases hfull : queue_is_full q = true
        · have hput : consumer_producer_put q (some s) [] =
              .blocked { q with not_full_monitor := monitor_reset q.not_full_monitor } := by
            rw [consumer_producer_put_some]
            rw [if_neg (by simp [hinit]), if_neg (by simp [hf]), if_neg (by simp [hf])]
            unfold put_wait_loop
            rw [if_pos hfull]
          simp only [runTrace, hput]
          obtain ⟨⟨w1, w2, w3, w4⟩, hit⟩ := hInv
          exact ih _ pending0 ⟨⟨w1, w2, w3, w4⟩, hit⟩ hinit hpend
        · have hlt : q.count < q.capacity := by
            have hne : ¬ q.count = q.capacity := by simpa [queue_is_full] using hfull
            have := hInv.1.2.2.1
            omega
          have hput : consumer_producer_put q (some s) [] = .ok (put_critical q s) := by
            rw [consumer_producer_put_some]
            rw [if_neg (by simp [hinit]), if_neg (by simp [hf]), if_neg (by simp [hf])]
            exact put_wait_loop_not_full s [] (by simpa using hfull)
          simp only [runTrace, hput]
          have hInv2 := put_critical_inv s hInv hlt
          have hinit2 : (put_critical q s).initialized = true := by
            rw [(put_critical_fields q s).2.2.2.2.2.1]
            exact hinit
          have hpend2 : queueItemsOpt (put_critical q s) = (pending0 ++ [s]).map some := by
            rw [put_critical_queueItems s hInv.1 hlt, hpend, List.map_append]
            rfl
          obtain ⟨l, hl1, hl2⟩ := ih _ (pending0 ++ [s]) hInv2 hinit2 hpend2
          refine ⟨l, ?_, hl2⟩
          simpa [List.append_assoc] using hl1
    | get =>
      have hget0 : consumer_producer_get q [] = get_wait_loop q [] := by
        unfold consumer_producer_get
        rw [if_neg (by simp [hinit])]
      by_cases hz : q.count = 0
      · by_cases hf : q.finished_flag = true
        · have hget : consumer_producer_get q [] = .noItem q := by
            rw [hget0, get_wait_loop_empty_finished hz hf]
          simp only [runTrace, hget]
          exact ih q pending0 hInv hinit hpend
        · have hget : consumer_producer_get q [] =
              .blocked { q with not_empty_monitor := monitor_reset q.not_empty_monitor } := by
            rw [hget0, get_wait_loop_blocked_empty hz (by simpa using hf)]
          simp only [runTrace, hget]
          obtain ⟨⟨w1, w2, w3, w4⟩, hit⟩ := hInv
          exact ih _ pending0 ⟨⟨w1, w2, w3, w4⟩, hit⟩ hinit hpend
      · obtain ⟨s, hs, hrun, hlist⟩ := get_wait_loop_nonempty hInv hz []
        have hget : consumer_producer_get q [] = .got s (get_critical q).2 := by
          rw [hget0, hrun]
        simp only [runTrace, hget]
        have hpos : 0 < q.count := Nat.pos_of_ne_zero hz
        have hInv2 := get_critical_inv hInv hpos
        have hinit2 : (get_critical q).2.initialized = true := by
          rw [(get_critical_snd_fields q).2.2.2.2.2.1]
          exact hinit
        match pending0, hpend with
        | [], hpend =>
          rw [hlist] at hpend
          cases hpend
        | p :: pending1, hpend =>
          rw [hlist] at hpend
          have hp : p = s := by
            have := (List.cons.injEq _ _ _ _).mp hpend
            exact (Option.some.injEq _ _).mp this.1.symm
          have hpend2 : queueItemsOpt (get_critical q).2 = pending1.map some := by
            have := (List.cons.injEq _ _ _ _).mp hpend
            exact this.2
          obtain ⟨l, hl1, hl2⟩ := ih _ pending1 hInv2 hinit2 hpend2
          refine ⟨l, ?_, hl2⟩
          subst hp
          simpa using hl1
    | signal =>
      simp only [runTrace]
      exact ih _ pending0 (signal_finished_inv hInv)
        (by rw [(signal_finished_fields q).2.2.2.2.2]; exact hinit)
        (by rw [signal_finished_queueItems]; exact hpend)

theorem init_ok_spec {q0 : consumer_producer_t} {c : Int}
    (hq : consumer_producer_init fresh_queue c = .ok q0) :
    QueueInv q0 ∧ q0.initialized = true ∧ queueItemsOpt q0 = [] ∧
    q0.capacity = c.toNat ∧ 0 < c := by
  unfold consumer_producer_init at hq
  split_ifs at hq with h1 h2 h3
  injection hq with hq2
  subst hq2
  have hc : 0 < c := by omega
  have hcap : 0 < c.toNat := by omega
  refine ⟨⟨⟨?_, ?_, ?_, ?_⟩, ?_⟩, rfl, ?_, rfl, hc⟩
  · simp
  · simpa using hcap
  · simp
  · simp
  · intro x hx
    simp [queueItemsOpt] at hx
  · simp [queueItemsOpt]

/-!
## Claim theorems for the queue component
-/

/-- A freshly initialized queue of capacity 2, as built by
`consumer_producer_init`. -/
def demo_fresh2 : consumer_producer_t :=
  { items := [none, none], count := 0, head := 0, tail := 0, capacity := 2,
    initialized := true, finished_flag := false,
    not_full_monitor := monitor_fresh, not_empty_monitor := monitor_fresh,
    finished_monitor := monitor_fresh }

/-- An initialized capacity-1 queue holding one item (full, not finished). -/
def demo_full1 : consumer_producer_t :=
  { items := [some "x"], count := 1, head := 0, tail := 0, capacity := 1,
    initialized := true, finished_flag := false,
    not_full_monitor := monitor_fresh, not_empty_monitor := monitor_fresh,
    finished_monitor := monitor_fresh }

/-- C1: FIFO per queue.  In any serialized trace of `put`/`get`/
`signal_finished` operations on a freshly initialized queue, the items
returned by gets are exactly a prefix of the successfully put items in put
order — the i-th successful get returns the item of the i-th successful
put — with the not-yet-got puts still queued, in order. -/
theorem claim_C1_fifo_per_queue (c : Int) (q0 : consumer_producer_t)
    (ops : List TraceOp)
    (hq : consumer_producer_init fresh_queue c = .ok q0) :
    ∃ pending,
      (runTrace q0 ops).puts = (runTrace q0 ops).gets ++ pending ∧
      queueItemsOpt (runTrace q0 ops).final = pending.map some := by
  obtain ⟨hInv, hinit, hitems, _, _⟩ := init_ok_spec hq
  obtain ⟨l, hl1, hl2⟩ := runTrace_ledger ops q0 [] hInv hinit (by simpa using hitems)
  exact ⟨l, by simpa using hl1, hl2⟩

theorem claim_C1_fifo_per_queue_witness :
    ∃ pending,
      (runTrace demo_fresh2 [.put "a", .put "b", .get, .get]).puts =
        (runTrace demo_fresh2 [.put "a", .put "b", .get, .get]).gets ++ pending ∧
      queueItemsOpt (runTrace demo_fresh2 [.put "a", .put "b", .get, .get]).final =
        pending.map some :=
  claim_C1_fifo_per_queue 2 demo_fresh2 [.put "a", .put "b", .get, .get] rfl

/-- C3: `put` fails with the after-finished error exactly when `finished`
is observed set at its initial checks (in this serialized embedding the
unlocked check and the locked re-check see the same state).  A put that
passed those checks never fails: while the queue stays full it stays
blocked — even if `signal_finished` runs meanwhile — and once space is
available it completes by appending its item. -/
theorem claim_C3_put_after_finish (q : consumer_producer_t) (s : String)
    (env : List EnvAction) (hinit : q.initialized = true) :
    ((∃ q2, consumer_producer_put q (some s) env =
        .err "Cannot add item after finished signal" q2) ↔ q.finished_flag = true) ∧
    (q.finished_flag = false →
      (∀ msg q2, consumer_producer_put q (some s) env ≠ .err msg q2) ∧
      (∀ q2, consumer_producer_put q (some s) env = .blocked q2 →
        queue_is_full q2 = true) ∧
      (∀ q2, consumer_producer_put q (some s) env = .ok q2 →
        ∃ qw, queue_is_full qw = false ∧ q2 = put_critical qw s) ∧
      (queue_is_full q = false →
        consumer_producer_put q (some s) env = .ok (put_critical q s))) := by
  rw [consumer_producer_put_some, if_neg (by simp [hinit])]
  by_cases hf : q.finished_flag = true
  · rw [if_pos hf]
    refine ⟨⟨fun _ => hf, fun _ => ⟨q, rfl⟩⟩, fun hff => ?_⟩
    rw [hff] at hf
    cases hf
  · rw [if_neg hf, if_neg hf]
    refine ⟨⟨fun hex => ?_, fun hff => ?_⟩, fun _ => ?_⟩
    · obtain ⟨q2, h2⟩ := hex
      exact absurd h2 (put_wait_loop_no_err s _ env q q2)
    · exact absurd hff hf
    · exact ⟨fun msg q2 => put_wait_loop_no_err s msg env q q2,
             fun q2 => put_wait_loop_blocked_full s env q q2,
             fun q2 => put_wait_loop_ok s env q q2,
             fun hnf => put_wait_loop_not_full s env hnf⟩

theorem claim_C3_put_after_finish_witness :
    ((∃ q2, consumer_producer_put demo_full1 (some "y")
        [.envSignalFinished, .envGet] =
        .err "Cannot add item after finished signal" q2) ↔
      demo_full1.finished_flag = true) ∧
    (demo_full1.finished_flag = false →
      (∀ msg q2, consumer_producer_put demo_full1 (some "y")
        [.envSignalFinished, .envGet] ≠ .err msg q2) ∧
      (∀ q2, consumer_producer_put demo_full1 (some "y")
        [.envSignalFinished, .envGet] = .blocked q2 → queue_is_full q2 = true) ∧
      (∀ q2, consumer_producer_put demo_full1 (some "y")
        [.envSignalFinished, .envGet] = .ok q2 →
        ∃ qw, queue_is_full qw = false ∧ q2 = put_critical qw "y") ∧
      (queue_is_full demo_full1 = false →
        consumer_producer_put demo_full1 (some "y") [.envSignalFinished, .envGet] =
          .ok (put_critical demo_full1 "y"))) :=
  claim_C3_put_after_finish demo_full1 "y" [.envSignalFinished, .envGet] (by decide)

/-- C4: on an initialized well-formed queue, `get` returns NULL exactly in a
state that is empty and finished; it blocks (only) while empty and not
finished; otherwise it returns the head item with ownership, removing it
from the queue — and these are the only possible outcomes. -/
theorem claim_C4_get_contract (q : consumer_producer_t) (env : List EnvAction)
    (hinit : q.initialized = true) (hInv : QueueInv q) :
    (∀ q2, consumer_producer_get q env = .noItem q2 →
      q2.count = 0 ∧ q2.finished_flag = true) ∧
    (q.count = 0 → q.finished_flag = true →
      consumer_producer_get q env = .noItem q) ∧
    (q.count = 0 → q.finished_flag = false →
      consumer_producer_get q [] =
        .blocked { q with not_empty_monitor := monitor_reset q.not_empty_monitor }) ∧
    (∀ q2, consumer_producer_get q env = .blocked q2 →
      q2.count = 0 ∧ q2.finished_flag = false) ∧
    (∀ s q2, consumer_producer_get q env = .got s q2 →
      ∃ qs, QueueInv qs ∧ q2 = (get_critical qs).2 ∧
        queueItemsOpt qs = some s :: queueItemsOpt q2) ∧
    (q.count ≠ 0 → ∃ s, q.items.getD q.head none = some s ∧
      consumer_producer_get q env = .got s (get_critical q).2) := by
  have hred : ∀ e, consumer_producer_get q e = get_wait_loop q e := by
    intro e
    unfold consumer_producer_get
    rw [if_neg (by simp [hinit])]
  obtain ⟨hni, hgot, hbl⟩ := get_wait_loop_spec env q hInv
  refine ⟨?_, ?_, ?_, ?_, ?_, ?_⟩
  · intro q2 h
    exact hni q2 (by rwa [hred] at h)
  · intro h0 hfin
    rw [hred]
    exact get_wait_loop_empty_finished h0 hfin env
  · intro h0 hfin
    rw [hred]
    exact get_wait_loop_blocked_empty h0 hfin
  · intro q2 h
    exact hbl q2 (by rwa [hred] at h)
  · intro s q2 h
    exact hgot s q2 (by rwa [hred] at h)
  · intro hz
    obtain ⟨s, hs, hrun, _⟩ := get_wait_loop_nonempty hInv hz env
    exact ⟨s, hs, by rw [hred]; exact hrun⟩

theorem claim_C4_get_contract_witness :
    (∀ q2, consumer_producer_get demo_full1 [] = .noItem q2 →
      q2.count = 0 ∧ q2.finished_flag = true) ∧
    (demo_full1.count = 0 → demo_full1.finished_flag = true →
      consumer_producer_get demo_full1 [] = .noItem demo_full1) ∧
    (demo_full1.count = 0 → demo_full1.finished_flag = false →
      consumer_producer_get demo_full1 [] =
        .blocked { demo_full1 with
          not_empty_monitor := monitor_reset demo_full1.not_empty_monitor }) ∧
    (∀ q2, consumer_producer_get demo_full1 [] = .blocked q2 →
      q2.count = 0 ∧ q2.finished_flag = false) ∧
    (∀ s q2, consumer_producer_get demo_full1 [] = .got s q2 →
      ∃ qs, QueueInv qs ∧ q2 = (get_critical qs).2 ∧
        queueItemsOpt qs = some s :: queueItemsOpt q2) ∧
    (demo_full1.count ≠ 0 → ∃ s, demo_full1.items.getD demo_full1.head none = some s ∧
      consumer_producer_get demo_full1 [] = .got s (get_critical demo_full1).2) :=
  claim_C4_get_contract demo_full1 [] (by decide)
    ⟨⟨by decide, by decide, by decide, by decide⟩, by decide⟩

/-- C7: `wait_finished` returns success only in a state where `finished` is
set and `count = 0`; from such a state it returns at once, unchanged; in any
other state it does not return but parks in its two-phase reset/wait loop on
the drained (`finished`) monitor, which it has reset. -/
theorem claim_C7_wait_finished (q : consumer_producer_t) (env : List EnvAction)
    (hinit : q.initialized = true)
    (hmon : q.finished_monitor.initialized = true) :
    (∀ q2, consumer_producer_wait_finished q env = .success q2 →
      q2.finished_flag = true ∧ q2.count = 0) ∧
    (q.finished_flag = true ∧ q.count = 0 →
      consumer_producer_wait_finished q env = .success q) ∧
    (¬(q.finished_flag = true ∧ q.count = 0) →
      ∃ q2, consumer_producer_wait_finished q [] = .blocked q2 ∧
        q2.finished_monitor.signaled = false) := by
  have hred : ∀ e, consumer_producer_wait_finished q e =
      if q.finished_flag = true ∧ q.count = 0 then .success q
      else wait_phase1 q e := by
    intro e
    unfold consumer_producer_wait_finished
    rw [if_neg (by simp [hinit])]
  refine ⟨?_, ?_, ?_⟩
  · intro q2 h
    rw [hred] at h
    by_cases hc : q.finished_flag = true ∧ q.count = 0
    · rw [if_pos hc] at h
      cases h
      exact hc
    · rw [if_neg hc] at h
      exact wait_phase1_success env q q2 h
  · intro hc
    rw [hred, if_pos hc]
  · intro hc
    rw [hred, if_neg hc]
    by_cases hf : q.finished_flag = true
    · have hcount : q.count > 0 := by
        rcases Nat.eq_zero_or_pos q.count with h0 | hpos
        · exact absurd ⟨hf, h0⟩ hc
        · exact hpos
      refine ⟨{ q with finished_monitor := monitor_reset q.finished_monitor }, ?_, ?_⟩
      · unfold wait_phase1
        rw [if_neg (by simp [hf])]
        unfold wait_phase2
        rw [if_pos hcount]
      · simp [monitor_reset, hmon]
    · refine ⟨{ q with finished_monitor := monitor_reset q.finished_monitor }, ?_, ?_⟩
      · unfold wait_phase1
        rw [if_pos (by simpa using hf)]
      · simp [monitor_reset, hmon]

theorem claim_C7_wait_finished_witness :
    (∀ q2, consumer_producer_wait_finished demo_full1 [] = .success q2 →
      q2.finished_flag = true ∧ q2.count = 0) ∧
    (demo_full1.finished_flag = true ∧ demo_full1.count = 0 →
      consumer_producer_wait_finished demo_full1 [] = .success demo_full1) ∧
    (¬(demo_full1.finished_flag = true ∧ demo_full1.count = 0) →
      ∃ q2, consumer_producer_wait_finished demo_full1 [] = .blocked q2 ∧
        q2.finished_monitor.signaled = false) :=
  claim_C7_wait_finished demo_full1 [] (by decide) (by decide)

/-- C8: `signal_finished` is idempotent — a second call returns the queue
unchanged (same items, count, head, tail, flag, and monitor flags: it
performs no further signals), and after the first call the flag is set. -/
theorem claim_C8_signal_finished_idempotent (q : consumer_producer_t)
    (hinit : q.initialized = true) :
    consumer_producer_signal_finished (consumer_producer_signal_finished q) =
      consumer_producer_signal_finished q ∧
    (consumer_producer_signal_finished q).finished_flag = true := by
  by_cases hf : q.finished_flag = true
  · have h1 : consumer_producer_signal_finished q = q := by
      unfold consumer_producer_signal_finished
      rw [if_neg (by simp [hinit]), if_pos hf]
    exact ⟨by rw [h1]; exact h1, by rw [h1]; exact hf⟩
  · have h1 : consumer_producer_signal_finished q =
        { q with finished_flag := true,
                 finished_monitor := monitor_signal q.finished_monitor,
                 not_empty_monitor := monitor_signal q.not_empty_monitor } := by
      simp [consumer_producer_signal_finished, hinit, hf]
    have h2 : consumer_producer_signal_finished
        { q with finished_flag := true,
                 finished_monitor := monitor_signal q.finished_monitor,
                 not_empty_monitor := monitor_signal q.not_empty_monitor } =
        { q with finished_flag := true,
                 finished_monitor := monitor_signal q.finished_monitor,
                 not_empty_monitor := monitor_signal q.not_empty_monitor } := by
      simp [consumer_producer_signal_finished, hinit]
    refine ⟨by rw [h1, h2], by rw [h1]⟩

theorem claim_C8_signal_finished_idempotent_witness :
    consumer_producer_signal_finished (consumer_producer_signal_finished demo_fresh2) =
      consumer_producer_signal_finished demo_fresh2 ∧
    (consumer_producer_signal_finished demo_fresh2).finished_flag = true :=
  claim_C8_signal_finished_idempotent demo_fresh2 (by decide)

/-- C9: every queue operation — `put` (with any item and interference),
`get`, `signal_finished`, `wait_finished` — keeps `count ≤ capacity`
(counts are naturals, so `0 ≤ count` always holds), keeps the capacity, and
never clears the `finished` flag once set. -/
theorem claim_C9_invariants (q : consumer_producer_t)
    (h : q.count ≤ q.capacity) :
    (∀ item env, Pres q (consumer_producer_put q item env).state) ∧
    (∀ env, Pres q (consumer_producer_get q env).state) ∧
    Pres q (consumer_producer_signal_finished q) ∧
    (∀ env, Pres q (consumer_producer_wait_finished q env).state) := by
  refine ⟨?_, ?_, signal_finished_pres h, ?_⟩
  · intro item env
    cases item with
    | none => exact ⟨h, rfl, fun hf => hf⟩
    | some s =>
      rw [consumer_producer_put_some]
      split
      · exact ⟨h, rfl, fun hf => hf⟩
      · split
        · exact ⟨h, rfl, fun hf => hf⟩
        · exact put_wait_loop_pres s env q h
  · intro env
    unfold consumer_producer_get
    split
    · exact ⟨h, rfl, fun hf => hf⟩
    · exact get_wait_loop_pres env q h
  · intro env
    unfold consumer_producer_wait_finished
    split
    · exact ⟨h, rfl, fun hf => hf⟩
    · split
      · exact ⟨h, rfl, fun hf => hf⟩
      · exact wait_phase1_pres env q h

theorem claim_C9_invariants_witness :
    (∀ item env, Pres demo_full1 (consumer_producer_put demo_full1 item env).state) ∧
    (∀ env, Pres demo_full1 (consumer_producer_get demo_full1 env).state) ∧
    Pres demo_full1 (consumer_producer_signal_finished demo_full1) ∧
    (∀ env, Pres demo_full1 (consumer_producer_wait_finished demo_full1 env).state) :=
  claim_C9_invariants demo_full1 (by decide)

/-!
## The stage worker loop (`plugin_consumer_thread`, plugin_common.c 26-112)

Heap buffers are pointer identities plus contents; the C code's pointer
comparison `out != in` is `out.id ≠ b.id`.  Each iteration of the worker
loop is driven by one `GetEvent`: what `consumer_producer_get` returned and,
for an item, what the transform returns for it (NULL, the same pointer —
possibly with contents rewritten in place — or a fresh buffer) and whether
the downstream `place_work` call succeeds.  On a successful forward,
ownership of the forwarded buffer moves downstream (the buffer is recorded
in `sent`, not freed here). -/

structure Buffer where
  id : Nat
  content : String
deriving DecidableEq

/-- The sentinel literal `"<END>"` (plugin_common.c line 8). -/
def END_SENTINEL : String := "<END>"

/-- `is_end` (plugin_common.c lines 15-17), on non-NULL contents. -/
def is_end (s : String) : Bool := s = END_SENTINEL

inductive GetEvent where
  | nullItem
  | item : Buffer → Option Buffer → Bool → GetEvent
deriving DecidableEq

/-- Observable effects of one worker run: buffers freed (`free` calls on
payload/sentinel buffers, in order), buffers successfully handed downstream,
whether the worker returned, and whether it signalled its own queue
finished. -/
structure WorkerRun where
  freed : List Nat
  sent : List Buffer
  exited : Bool
  signaled : Bool
deriving DecidableEq

/-- `plugin_consumer_thread` (plugin_common.c lines 26-112), driven by a
list of get events; `attached`/`hasNext` are `ctx->attached` and
`ctx->next_place_work != NULL`.  An exhausted event list means the worker is
still looping (it only returns through the sentinel branch). -/
def plugin_consumer_thread (attached hasNext : Bool) : List GetEvent → WorkerRun
  | [] => { freed := [], sent := [], exited := false, signaled := false }
  | .nullItem :: rest => plugin_consumer_thread attached hasNext rest
  | .item b tret fwdOk :: rest =>
    if is_end b.content then
      if attached = true ∧ hasNext = true then
        if fwdOk then { freed := [], sent := [b], exited := true, signaled := true }
        else { freed := [b.id], sent := [], exited := true, signaled := true }
      else { freed := [b.id], sent := [], exited := true, signaled := true }
    else
      match tret with
      | none =>
        let r := plugin_consumer_thread attached hasNext rest
        { r with freed := b.id :: r.freed }
      | some out =>
        if attached = true ∧ hasNext = true then
          if fwdOk then
            let r := plugin_consumer_thread attached hasNext rest
            if out.id ≠ b.id then { r with sent := out :: r.sent, freed := b.id :: r.freed }
            else { r with sent := out :: r.sent }
          else
            let r := plugin_consumer_thread attached hasNext rest
            if out.id ≠ b.id then { r with freed := out.id :: b.id :: r.freed }
            else { r with freed := b.id :: r.freed }
        else
          let r := plugin_consumer_thread attached hasNext rest
          if out.id ≠ b.id then { r with freed := out.id :: b.id :: r.freed }
          else { r with freed := b.id :: r.freed }

/-- The ids of the dequeued buffers of a run (one per item event). -/
def eventInputIds : List GetEvent → List Nat
  | [] => []
  | .nullItem :: rest => eventInputIds rest
  | .item b _ _ :: rest => b.id :: eventInputIds rest

/-- The ids of the distinct buffers allocated by the transform during a run
(item events whose transform returns a fresh pointer; the sentinel is never
transformed). -/
def eventFreshIds : List GetEvent → List Nat
  | [] => []
  | .nullItem :: rest => eventFreshIds rest
  | .item b tret _ :: rest =>
    if is_end b.content then eventFreshIds rest
    else
      match tret with
      | none => eventFreshIds rest
      | some out =>
        if out.id ≠ b.id then out.id :: eventFreshIds rest else eventFreshIds rest

/-- A get event a payload run is made of: a NULL get or a non-sentinel item. -/
def PayloadEvent : GetEvent → Prop
  | .nullItem => True
  | .item b _ _ => is_end b.content = false

example : plugin_consumer_thread true true
    [.item ⟨0, "hi"⟩ (some ⟨1, "HI"⟩) true, .item ⟨2, "<END>"⟩ none true] =
    { freed := [0], sent := [⟨1, "HI"⟩, ⟨2, "<END>"⟩], exited := true,
      signaled := true } := by decide

example : plugin_consumer_thread false false
    [.item ⟨0, "hi"⟩ (some ⟨1, "HI"⟩) true, .item ⟨2, "<END>"⟩ none true] =
    { freed := [1, 0, 2], sent := [], exited := true, signaled := true } := by
  decide

/-- The local frees and successful sends of one payload iteration of the
worker loop (plugin_common.c lines 62-109). -/
def payloadDisposal (attached hasNext : Bool) : GetEvent → List Nat × List Buffer
  | .nullItem => ([], [])
  | .item b tret fwdOk =>
    match tret with
    | none => ([b.id], [])
    | some out =>
      if attached = true ∧ hasNext = true then
        if fwdOk then ((if out.id ≠ b.id then [b.id] else []), [out])
        else ((if out.id ≠ b.id then [out.id, b.id] else [b.id]), [])
      else ((if out.id ≠ b.id then [out.id, b.id] else [b.id]), [])

/-- The frees and sends of the sentinel iteration (plugin_common.c 42-60):
independent of the transform, which is never called on the sentinel. -/
def sentinelDisposal (attached hasNext : Bool) (b : Buffer) (fwdOk : Bool) :
    List Nat × List Buffer :=
  if attached = true ∧ hasNext = true then
    if fwdOk then ([], [b]) else ([b.id], [])
  else ([b.id], [])

theorem worker_payload_step (a h : Bool) (e : GetEvent) (rest : List GetEvent)
    (hp : PayloadEvent e) :
    plugin_consumer_thread a h (e :: rest) =
      { freed := (payloadDisposal a h e).1 ++ (plugin_consumer_thread a h rest).freed,
        sent := (payloadDisposal a h e).2 ++ (plugin_consumer_thread a h rest).sent,
        exited := (plugin_consumer_thread a h rest).exited,
        signaled := (plugin_consumer_thread a h rest).signaled } := by
  cases e with
  | nullItem => simp [plugin_consumer_thread, payloadDisposal]
  | item b tret fwdOk =>
    have hend : is_end b.content = false := hp
    cases tret with
    | none => simp [plugin_consumer_thread, payloadDisposal, hend]
    | some out =>
      by_cases hw : a = true ∧ h = true
      · by_cases hf : fwdOk = true <;> by_cases hid : out.id = b.id <;>
          simp [plugin_consumer_thread, payloadDisposal, hend, hw, hf, hid]
      · by_cases hid : out.id = b.id <;>
          simp [plugin_consumer_thread, payloadDisposal, hend, hw, hid]

theorem worker_sentinel_step (a h : Bool) (b : Buffer) (tret : Option Buffer)
    (f : Bool) (rest : List GetEvent) (hend : is_end b.content = true) :
    plugin_consumer_thread a h (.item b tret f :: rest) =
      { freed := (sentinelDisposal a h b f).1, sent := (sentinelDisposal a h b f).2,
        exited := true, signaled := true } := by
  by_cases hw : a = true ∧ h = true
  · by_cases hf : f = true <;>
      · cases tret <;> simp [plugin_consumer_thread, sentinelDisposal, hend, hw, hf]
  · cases tret <;> simp [plugin_consumer_thread, sentinelDisposal, hend, hw]

theorem eventInputIds_append (l1 l2 : List GetEvent) :
    eventInputIds (l1 ++ l2) = eventInputIds l1 ++ eventInputIds l2 := by
  induction l1 with
  | nil => simp [eventInputIds]
  | cons e rest ih =>
    cases e <;> simp [eventInputIds, ih]

theorem eventFreshIds_append (l1 l2 : List GetEvent) :
    eventFreshIds (l1 ++ l2) = eventFreshIds l1 ++ eventFreshIds l2 := by
  induction l1 with
  | nil => simp [eventFreshIds]
  | cons e rest ih =>
    cases e with
    | nullItem => simp [eventFreshIds, ih]
    | item b tret f =>
      by_cases hend : is_end b.content = true
      · simp [eventFreshIds, hend, ih]
      · cases tret with
        | none => simp [eventFreshIds, hend, ih]
        | some out =>
          by_cases hid : out.id = b.id <;> simp [eventFreshIds, hend, hid, ih]

theorem payloadDisposal_perm (a h : Bool) (e : GetEvent) (hp : PayloadEvent e) :
    ((payloadDisposal a h e).1 ++ (payloadDisposal a h e).2.map Buffer.id).Perm
      (eventInputIds [e] ++ eventFreshIds [e]) := by
  cases e with
  | nullItem => simp [payloadDisposal, eventInputIds, eventFreshIds]
  | item b tret fwdOk =>
    have hend : is_end b.content = false := hp
    cases tret with
    | none => simp [payloadDisposal, eventInputIds, eventFreshIds, hend]
    | some out =>
      by_cases hid : out.id = b.id
      · by_cases hw : a = true ∧ h = true
        · by_cases hf : fwdOk = true <;>
            simp [payloadDisposal, eventInputIds, eventFreshIds, hend, hw, hf, hid]
        · simp [payloadDisposal, eventInputIds, eventFreshIds, hend, hw, hid]
      · by_cases hw : a = true ∧ h = true
        · by_cases hf : fwdOk = true <;>
          · simp [payloadDisposal, eventInputIds, eventFreshIds, hend, hw, hf, hid]
            try exact List.Perm.swap _ _ _
        · simp [payloadDisposal, eventInputIds, eventFreshIds, hend, hw, hid]
          try exact List.Perm.swap _ _ _

theorem sentinelDisposal_perm (a h : Bool) (b : Buffer) (f : Bool) :
    ((sentinelDisposal a h b f).1 ++ (sentinelDisposal a h b f).2.map Buffer.id).Perm
      [b.id] := by
  by_cases hw : a = true ∧ h = true
  · by_cases hf : f = true <;> simp [sentinelDisposal, hw, hf]
  · simp [sentinelDisposal, hw]

theorem perm_middle_swap {α : Type} (A B C D : List α) :
    ((A ++ C) ++ (B ++ D)).Perm ((A ++ B) ++ (C ++ D)) := by
  have h1 : (A ++ C) ++ (B ++ D) = A ++ ((C ++ B) ++ D) := by
    simp [List.append_assoc]
  have h3 : A ++ ((B ++ C) ++ D) = (A ++ B) ++ (C ++ D) := by
    simp [List.append_assoc]
  rw [h1, ← h3]
  exact List.Perm.append_left A (List.Perm.append_right D List.perm_append_comm)

/-- Every buffer a worker run disposes of — freed here or successfully
handed downstream — is one of the dequeued inputs or fresh transform
outputs, each exactly once (as a permutation, before any distinctness
assumption). -/
theorem worker_disposal_perm (a h : Bool) :
    ∀ (pes : List GetEvent) (bs : Buffer) (tb : Option Buffer) (fb : Bool),
      (∀ e ∈ pes, PayloadEvent e) → is_end bs.content = true →
      ((plugin_consumer_thread a h (pes ++ [.item bs tb fb])).freed ++
        (plugin_consumer_thread a h (pes ++ [.item bs tb fb])).sent.map Buffer.id).Perm
      (eventInputIds (pes ++ [.item bs tb fb]) ++
        eventFreshIds (pes ++ [.item bs tb fb])) := by
  intro pes
  induction pes with
  | nil =>
    intro bs tb fb hp hend
    rw [List.nil_append, worker_sentinel_step a h bs tb fb [] hend]
    have hids : eventInputIds [GetEvent.item bs tb fb] ++
        eventFreshIds [GetEvent.item bs tb fb] = [bs.id] := by
      simp [eventInputIds, eventFreshIds, hend]
    rw [hids]
    exact sentinelDisposal_perm a h bs fb
  | cons e rest ih =>
    intro bs tb fb hp hend
    rw [List.cons_append,
        worker_payload_step a h e _ (hp e (List.mem_cons_self _ _))]
    have hin : eventInputIds (e :: (rest ++ [GetEvent.item bs tb fb])) =
        eventInputIds [e] ++ eventInputIds (rest ++ [GetEvent.item bs tb fb]) := by
      rw [show e :: (rest ++ [GetEvent.item bs tb fb]) =
            [e] ++ (rest ++ [GetEvent.item bs tb fb]) from rfl,
          eventInputIds_append]
    have hfr : eventFreshIds (e :: (rest ++ [GetEvent.item bs tb fb])) =
        eventFreshIds [e] ++ eventFreshIds (rest ++ [GetEvent.item bs tb fb]) := by
      rw [show e :: (rest ++ [GetEvent.item bs tb fb]) =
            [e] ++ (rest ++ [GetEvent.item bs tb fb]) from rfl,
          eventFreshIds_append]
    rw [hin, hfr]
    have hrec := ih bs tb fb (fun x hx => hp x (List.mem_cons_of_mem _ hx)) hend
    have hloc := payloadDisposal_perm a h e (hp e (List.mem_cons_self _ _))
    rw [List.map_append]
    exact ((perm_middle_swap _ _ _ _).trans
      (List.Perm.append hloc hrec)).trans (perm_middle_swap _ _ _ _)

/-- A stage that is not wired to a downstream never hands a buffer off. -/
theorem worker_sent_terminal (a h : Bool) (hw : ¬(a = true ∧ h = true)) :
    ∀ evs, (plugin_consumer_thread a h evs).sent = [] := by
  intro evs
  induction evs with
  | nil => rfl
  | cons e rest ih =>
    cases e with
    | nullItem => simpa [plugin_consumer_thread] using ih
    | item b tret f =>
      by_cases hend : is_end b.content = true
      · rw [worker_sentinel_step a h b tret f rest hend]
        simp [sentinelDisposal, hw]
      · rw [worker_payload_step a h _ rest (by simpa [PayloadEvent] using hend)]
        cases tret with
        | none => simpa [payloadDisposal] using ih
        | some out => simp [payloadDisposal, hw, ih]

/-- A run that dequeues the sentinel exits the loop and signals its queue. -/
theorem worker_run_ends (a h : Bool) :
    ∀ (pes : List GetEvent) (bs : Buffer) (tb : Option Buffer) (fb : Bool),
      (∀ e ∈ pes, PayloadEvent e) → is_end bs.content = true →
      (plugin_consumer_thread a h (pes ++ [.item bs tb fb])).exited = true ∧
      (plugin_consumer_thread a h (pes ++ [.item bs tb fb])).signaled = true := by
  intro pes
  induction pes with
  | nil =>
    intro bs tb fb hp hend
    rw [List.nil_append, worker_sentinel_step a h bs tb fb [] hend]
    exact ⟨rfl, rfl⟩
  | cons e rest ih =>
    intro bs tb fb hp hend
    rw [List.cons_append,
        worker_payload_step a h e _ (hp e (List.mem_cons_self _ _))]
    exact ih bs tb fb (fun x hx => hp x (List.mem_cons_of_mem _ hx)) hend

/-- The sentinel is never passed to the transform: the run is unchanged if
the transform-return oracle of the sentinel event is replaced. -/
theorem worker_sentinel_not_transformed (a h : Bool) :
    ∀ (pes : List GetEvent) (bs : Buffer) (tb tb2 : Option Buffer) (fb : Bool),
      (∀ e ∈ pes, PayloadEvent e) → is_end bs.content = true →
      plugin_consumer_thread a h (pes ++ [.item bs tb fb]) =
        plugin_consumer_thread a h (pes ++ [.item bs tb2 fb]) := by
  intro pes
  induction pes with
  | nil =>
    intro bs tb tb2 fb hp hend
    rw [List.nil_append, List.nil_append,
        worker_sentinel_step a h bs tb fb [] hend,
        worker_sentinel_step a h bs tb2 fb [] hend]
  | cons e rest ih =>
    intro bs tb tb2 fb hp hend
    rw [List.cons_append, List.cons_append,
        worker_payload_step a h e _ (hp e (List.mem_cons_self _ _)),
        worker_payload_step a h e _ (hp e (List.mem_cons_self _ _)),
        ih bs tb tb2 fb (fun x hx => hp x (List.mem_cons_of_mem _ hx)) hend]

/-- C2: single-free.  For a worker run that dequeues K payload buffers (and
possibly NULL returns) and then the sentinel, with pairwise distinct heap
buffers, every buffer involved — each dequeued input and each distinct
transform-allocated output — is disposed of exactly once (freed locally or
handed downstream with ownership), across all combinations of transform
behavior (same pointer, fresh buffer, NULL), wiring, and downstream
success/failure.  A terminal stage hands nothing off and performs exactly
K+1 frees of dequeued buffers. -/
theorem claim_C2_single_free (attached hasNext : Bool) (pes : List GetEvent)
    (bs : Buffer) (tb : Option Buffer) (fb : Bool)
    (hp : ∀ e ∈ pes, PayloadEvent e) (hend : is_end bs.content = true)
    (hnd : (eventInputIds (pes ++ [.item bs tb fb]) ++
            eventFreshIds (pes ++ [.item bs tb fb])).Nodup) :
    (∀ i ∈ eventInputIds (pes ++ [.item bs tb fb]) ++
          eventFreshIds (pes ++ [.item bs tb fb]),
      (plugin_consumer_thread attached hasNext (pes ++ [.item bs tb fb])).freed.count i +
        ((plugin_consumer_thread attached hasNext
          (pes ++ [.item bs tb fb])).sent.map Buffer.id).count i = 1) ∧
    (¬(attached = true ∧ hasNext = true) →
      (plugin_consumer_thread attached hasNext (pes ++ [.item bs tb fb])).sent = [] ∧
      (plugin_consumer_thread attached hasNext (pes ++ [.item bs tb fb])).freed.countP
          (fun i => decide (i ∈ eventInputIds (pes ++ [.item bs tb fb]))) =
        (eventInputIds pes).length + 1) := by
  have hperm := worker_disposal_perm attached hasNext pes bs tb fb hp hend
  constructor
  · intro i hi
    have h1 := hperm.count_eq i
    rw [List.count_append] at h1
    rw [h1]
    exact List.count_eq_one_of_mem hnd hi
  · intro hw
    have hsent := worker_sent_terminal attached hasNext hw (pes ++ [.item bs tb fb])
    refine ⟨hsent, ?_⟩
    have hperm2 :
        (plugin_consumer_thread attached hasNext (pes ++ [.item bs tb fb])).freed.Perm
          (eventInputIds (pes ++ [.item bs tb fb]) ++
            eventFreshIds (pes ++ [.item bs tb fb])) := by
      have := hperm
      rw [hsent] at this
      simpa using this
    rw [hperm2.countP_eq, List.countP_append]
    have hA : (eventInputIds (pes ++ [.item bs tb fb])).countP
        (fun i => decide (i ∈ eventInputIds (pes ++ [.item bs tb fb]))) =
        (eventInputIds (pes ++ [.item bs tb fb])).length :=
      List.countP_eq_length.mpr (fun a ha => by simpa using ha)
    have hdisj := List.disjoint_of_nodup_append hnd
    have hB : (eventFreshIds (pes ++ [.item bs tb fb])).countP
        (fun i => decide (i ∈ eventInputIds (pes ++ [.item bs tb fb]))) = 0 :=
      List.countP_eq_zero.mpr (fun a ha => by
        simp only [decide_eq_true_eq]
        intro hmem
        exact hdisj hmem ha)
    rw [hA, hB, Nat.add_zero, eventInputIds_append]
    simp [eventInputIds]

theorem claim_C2_single_free_witness :
    (∀ i ∈ eventInputIds
          ([GetEvent.item ⟨0, "hi"⟩ (some ⟨1, "HI"⟩) true] ++
            [GetEvent.item ⟨2, "<END>"⟩ none true]) ++
          eventFreshIds
          ([GetEvent.item ⟨0, "hi"⟩ (some ⟨1, "HI"⟩) true] ++
            [GetEvent.item ⟨2, "<END>"⟩ none true]),
      (plugin_consumer_thread false false
          ([GetEvent.item ⟨0, "hi"⟩ (some ⟨1, "HI"⟩) true] ++
            [GetEvent.item ⟨2, "<END>"⟩ none true])).freed.count i +
        ((plugin_consumer_thread false false
          ([GetEvent.item ⟨0, "hi"⟩ (some ⟨1, "HI"⟩) true] ++
            [GetEvent.item ⟨2, "<END>"⟩ none true])).sent.map Buffer.id).count i = 1) ∧
    (¬(false = true ∧ false = true) →
      (plugin_consumer_thread false false
          ([GetEvent.item ⟨0, "hi"⟩ (some ⟨1, "HI"⟩) true] ++
            [GetEvent.item ⟨2, "<END>"⟩ none true])).sent = [] ∧
      (plugin_consumer_thread false false
          ([GetEvent.item ⟨0, "hi"⟩ (some ⟨1, "HI"⟩) true] ++
            [GetEvent.item ⟨2, "<END>"⟩ none true])).freed.countP
          (fun i => decide (i ∈ eventInputIds
            ([GetEvent.item ⟨0, "hi"⟩ (some ⟨1, "HI"⟩) true] ++
              [GetEvent.item ⟨2, "<END>"⟩ none true]))) =
        (eventInputIds [GetEvent.item ⟨0, "hi"⟩ (some ⟨1, "HI"⟩) true]).length + 1) :=
  claim_C2_single_free false false
    [GetEvent.item ⟨0, "hi"⟩ (some ⟨1, "HI"⟩) true]
    ⟨2, "<END>"⟩ none true
    (by
      intro e he
      simp at he
      subst he
      simp [PayloadEvent, is_end, END_SENTINEL])
    (by decide) (by decide)

/-- The contents a wired worker successfully forwards for its payload
events, in order. -/
def payloadForwards : List GetEvent → List String
  | [] => []
  | .nullItem :: rest => payloadForwards rest
  | .item b tret fwdOk :: rest =>
    if is_end b.content then payloadForwards rest
    else
      match tret with
      | none => payloadForwards rest
      | some out =>
        if fwdOk then out.content :: payloadForwards rest else payloadForwards rest

/-- The transform output of this event (if any) is not the sentinel. -/
def NonSentinelOut : GetEvent → Prop
  | .item _ (some out) _ => is_end out.content = false
  | _ => True

theorem worker_sent_contents :
    ∀ (pes : List GetEvent) (bs : Buffer) (tb : Option Buffer) (fb : Bool),
      (∀ e ∈ pes, PayloadEvent e) → is_end bs.content = true →
      (plugin_consumer_thread true true (pes ++ [.item bs tb fb])).sent.map Buffer.content =
        payloadForwards pes ++ (if fb then [bs.content] else []) := by
  intro pes
  induction pes with
  | nil =>
    intro bs tb fb hp hend
    rw [List.nil_append, worker_sentinel_step true true bs tb fb [] hend]
    by_cases hf : fb = true <;> simp [sentinelDisposal, payloadForwards, hf]
  | cons e rest ih =>
    intro bs tb fb hp hend
    rw [List.cons_append,
        worker_payload_step true true e _ (hp e (List.mem_cons_self _ _))]
    have hrec := ih bs tb fb (fun x hx => hp x (List.mem_cons_of_mem _ hx)) hend
    cases e with
    | nullItem => simpa [payloadDisposal, payloadForwards] using hrec
    | item b tret f =>
      have hpe : is_end b.content = false := hp _ (List.mem_cons_self _ _)
      cases tret with
      | none => simpa [payloadDisposal, payloadForwards, hpe] using hrec
      | some out =>
        by_cases hf : f = true <;>
          simp [payloadDisposal, payloadForwards, hpe, hf, hrec]

theorem payloadForwards_no_sentinel :
    ∀ (pes : List GetEvent), (∀ e ∈ pes, NonSentinelOut e) →
      ∀ sOut ∈ payloadForwards pes, is_end sOut = false := by
  intro pes
  induction pes with
  | nil => simp [payloadForwards]
  | cons e rest ih =>
    intro hns sOut hs
    cases e with
    | nullItem =>
      exact ih (fun x hx => hns x (List.mem_cons_of_mem _ hx)) sOut
        (by simpa [payloadForwards] using hs)
    | item b tret f =>
      by_cases hend : is_end b.content = true
      · exact ih (fun x hx => hns x (List.mem_cons_of_mem _ hx)) sOut
          (by simpa [payloadForwards, hend] using hs)
      · cases tret with
        | none =>
          exact ih (fun x hx => hns x (List.mem_cons_of_mem _ hx)) sOut
            (by simpa [payloadForwards, hend] using hs)
        | some out =>
          have hout : is_end out.content = false := hns _ (List.mem_cons_self _ _)
          by_cases hf : f = true
          · rw [payloadForwards] at hs
            rw [if_neg (by simp [hend]), hf] at hs
            simp at hs
            rcases hs with hs | hs
            · rw [hs]; exact hout
            · exact ih (fun x hx => hns x (List.mem_cons_of_mem _ hx)) sOut hs
          · exact ih (fun x hx => hns x (List.mem_cons_of_mem _ hx)) sOut
              (by simpa [payloadForwards, hend, hf] using hs)

theorem worker_sentinel_freed (a h : Bool) :
    ∀ (pes : List GetEvent) (bs : Buffer) (tb : Option Buffer) (fb : Bool),
      (∀ e ∈ pes, PayloadEvent e) → is_end bs.content = true →
      (¬(a = true ∧ h = true) ∨ fb = false) →
      bs.id ∈ (plugin_consumer_thread a h (pes ++ [.item bs tb fb])).freed := by
  intro pes
  induction pes with
  | nil =>
    intro bs tb fb hp hend hc
    rw [List.nil_append, worker_sentinel_step a h bs tb fb [] hend]
    rcases hc with hc | hc
    · simp [sentinelDisposal, hc]
    · by_cases hw : a = true ∧ h = true <;> simp [sentinelDisposal, hw, hc]
  | cons e rest ih =>
    intro bs tb fb hp hend hc
    rw [List.cons_append,
        worker_payload_step a h e _ (hp e (List.mem_cons_self _ _))]
    exact List.mem_append_right _
      (ih bs tb fb (fun x hx => hp x (List.mem_cons_of_mem _ hx)) hend hc)

/-- Build the get events a stage sees from the contents placed into its
queue: every dequeue succeeds, the transform is a function of the contents,
fresh output buffers, all forwards succeed. -/
def mkEvents (t : String → Option String) : List String → List GetEvent
  | [] => []
  | s :: rest =>
    .item ⟨0, s⟩ ((t s).map (fun o => ⟨1, o⟩)) true :: mkEvents t rest

theorem mkEvents_append (t : String → Option String) (l1 l2 : List String) :
    mkEvents t (l1 ++ l2) = mkEvents t l1 ++ mkEvents t l2 := by
  induction l1 with
  | nil => simp [mkEvents]
  | cons s rest ih => simp [mkEvents, ih]

theorem mkEvents_payload (t : String → Option String) (ps : List String)
    (hps : ∀ p ∈ ps, is_end p = false) :
    ∀ e ∈ mkEvents t ps, PayloadEvent e := by
  induction ps with
  | nil => simp [mkEvents]
  | cons s rest ih =>
    intro e he
    rw [mkEvents] at he
    rcases List.mem_cons.mp he with he | he
    · subst he
      exact hps s (List.mem_cons_self _ _)
    · exact ih (fun p hp => hps p (List.mem_cons_of_mem _ hp)) e he

theorem mkEvents_nso (t : String → Option String) (ps : List String)
    (ht : ∀ s o, t s = some o → is_end o = false) :
    ∀ e ∈ mkEvents t ps, NonSentinelOut e := by
  induction ps with
  | nil => simp [mkEvents]
  | cons s rest ih =>
    intro e he
    rw [mkEvents] at he
    rcases List.mem_cons.mp he with he | he
    · subst he
      match hts : t s with
      | none => simp [NonSentinelOut, hts]
      | some o => simp [NonSentinelOut, hts, ht s o hts]
    · exact ih e he

theorem payloadForwards_mkEvents (t : String → Option String) :
    ∀ (ps : List String), (∀ p ∈ ps, is_end p = false) →
      payloadForwards (mkEvents t ps) = ps.filterMap t := by
  intro ps
  induction ps with
  | nil => simp [mkEvents, payloadForwards]
  | cons s rest ih =>
    intro hps
    have hs : is_end s = false := hps s (List.mem_cons_self _ _)
    have hrest := ih (fun p hp => hps p (List.mem_cons_of_mem _ hp))
    match hts : t s with
    | none => simp [mkEvents, payloadForwards, hs, hts, hrest]
    | some o => simp [mkEvents, payloadForwards, hs, hts, hrest]

/-- The number of sentinels each stage of a chain forwards, stage by stage:
non-terminal stages are wired (`attached`, downstream present), the terminal
stage runs unwired, exactly as the controller leaves it. -/
def chainSentinelCounts :
    List (String → Option String) → List String → List Nat
  | [], _ => []
  | [t], input =>
    [((plugin_consumer_thread false false (mkEvents t input)).sent.map
        Buffer.content).countP (fun s0 => is_end s0)]
  | t :: t2 :: ts, input =>
    ((plugin_consumer_thread true true (mkEvents t input)).sent.map
        Buffer.content).countP (fun s0 => is_end s0) ::
      chainSentinelCounts (t2 :: ts)
        ((plugin_consumer_thread true true (mkEvents t input)).sent.map Buffer.content)

theorem chain_sentinel_traversal :
    ∀ (ts : List (String → Option String)) (ps : List String),
      ts ≠ [] →
      (∀ t ∈ ts, ∀ s o, t s = some o → is_end o = false) →
      (∀ p ∈ ps, is_end p = false) →
      chainSentinelCounts ts (ps ++ [END_SENTINEL]) =
        List.replicate (ts.length - 1) 1 ++ [0] := by
  intro ts
  induction ts with
  | nil =>
    intro ps hne hts hps
    exact absurd rfl hne
  | cons t rest ih =>
    intro ps hne ht hps
    cases rest with
    | nil =>
      rw [chainSentinelCounts,
          worker_sent_terminal false false (by simp) (mkEvents t (ps ++ [END_SENTINEL]))]
      rfl
    | cons t2 rest2 =>
      have hmk : mkEvents t (ps ++ [END_SENTINEL]) =
          mkEvents t ps ++
            [.item ⟨0, END_SENTINEL⟩ ((t END_SENTINEL).map (fun o => ⟨1, o⟩)) true] := by
        rw [mkEvents_append]
        rfl
      have hsc := worker_sent_contents (mkEvents t ps) ⟨0, END_SENTINEL⟩
        ((t END_SENTINEL).map (fun o => ⟨1, o⟩)) true
        (mkEvents_payload t ps hps) (by simp [is_end])
      rw [chainSentinelCounts, hmk, hsc]
      have hfwd : payloadForwards (mkEvents t ps) = ps.filterMap t :=
        payloadForwards_mkEvents t ps hps
      have hcount :
          ((payloadForwards (mkEvents t ps) ++
            (if true then [(Buffer.mk 0 END_SENTINEL).content] else [])).countP
              (fun s0 => is_end s0)) = 1 := by
        rw [if_pos rfl, List.countP_append]
        have h0 : (payloadForwards (mkEvents t ps)).countP (fun s0 => is_end s0) = 0 :=
          List.countP_eq_zero.mpr (fun a ha => by
            simp [payloadForwards_no_sentinel (mkEvents t ps)
              (mkEvents_nso t ps (ht t (List.mem_cons_self _ _))) a ha])
        rw [h0]
        simp [is_end]
      rw [hcount, hfwd]
      have hnext : ∀ p ∈ ps.filterMap t, is_end p = false := by
        intro p hp
        obtain ⟨s, _, hts⟩ := List.mem_filterMap.mp hp
        exact ht t (List.mem_cons_self _ _) s p hts
      have hrec := ih (ps.filterMap t) (by simp)
        (fun tx htx => ht tx (List.mem_cons_of_mem _ htx)) hnext
      have hinput : (List.filterMap t ps ++
          (if true = true then [(Buffer.mk 0 END_SENTINEL).content] else [])) =
          List.filterMap t ps ++ [END_SENTINEL] := by simp
      rw [hinput, hrec]
      simp [List.replicate_succ]

/-- C5: sentinel handling.  The sentinel is never passed to the transform
(the run is unchanged under any transform oracle for the sentinel event);
on dequeuing it the worker forwards it downstream at most once — exactly
once when wired and the forward succeeds, freeing it locally when terminal
or when the forward fails — then signals its own queue finished and exits.
Hence across an N-stage chain fed one sentinel, every non-terminal stage
forwards exactly one sentinel and the terminal stage consumes it. -/
theorem claim_C5_sentinel_traversal (attached hasNext : Bool)
    (pes : List GetEvent) (bs : Buffer) (tb : Option Buffer) (fb : Bool)
    (hp : ∀ e ∈ pes, PayloadEvent e)
    (hnso : ∀ e ∈ pes, NonSentinelOut e)
    (hend : is_end bs.content = true) :
    (∀ tb2, plugin_consumer_thread attached hasNext (pes ++ [.item bs tb fb]) =
      plugin_consumer_thread attached hasNext (pes ++ [.item bs tb2 fb])) ∧
    (plugin_consumer_thread attached hasNext (pes ++ [.item bs tb fb])).exited = true ∧
    (plugin_consumer_thread attached hasNext (pes ++ [.item bs tb fb])).signaled = true ∧
    (attached = true → hasNext = true →
      ((plugin_consumer_thread true true (pes ++ [.item bs tb fb])).sent.map
          Buffer.content).countP (fun s0 => is_end s0) = (if fb then 1 else 0) ∧
      (fb = false →
        bs.id ∈ (plugin_consumer_thread true true (pes ++ [.item bs tb fb])).freed)) ∧
    (¬(attached = true ∧ hasNext = true) →
      (plugin_consumer_thread attached hasNext (pes ++ [.item bs tb fb])).sent = [] ∧
      bs.id ∈ (plugin_consumer_thread attached hasNext (pes ++ [.item bs tb fb])).freed) ∧
    (∀ (ts : List (String → Option String)) (ps : List String),
      ts ≠ [] →
      (∀ t ∈ ts, ∀ s o, t s = some o → is_end o = false) →
      (∀ p ∈ ps, is_end p = false) →
      chainSentinelCounts ts (ps ++ [END_SENTINEL]) =
        List.replicate (ts.length - 1) 1 ++ [0]) := by
  refine ⟨?_, ?_, ?_, ?_, ?_, ?_⟩
  · intro tb2
    exact worker_sentinel_not_transformed attached hasNext pes bs tb tb2 fb hp hend
  · exact (worker_run_ends attached hasNext pes bs tb fb hp hend).1
  · exact (worker_run_ends attached hasNext pes bs tb fb hp hend).2
  · intro ha hh
    constructor
    · rw [worker_sent_contents pes bs tb fb hp hend, List.countP_append]
      have h0 : (payloadForwards pes).countP (fun s0 => is_end s0) = 0 :=
        List.countP_eq_zero.mpr (fun a hA => by
          simp [payloadForwards_no_sentinel pes hnso a hA])
      rw [h0]
      by_cases hf : fb = true
      · simp [hf, hend]
      · simp [hf]
    · intro hfb
      exact worker_sentinel_freed true true pes bs tb fb hp hend (Or.inr hfb)
  · intro hw
    exact ⟨worker_sent_terminal attached hasNext hw _,
           worker_sentinel_freed attached hasNext pes bs tb fb hp hend (Or.inl hw)⟩
  · exact chain_sentinel_traversal

theorem claim_C5_sentinel_traversal_witness :
    (∀ tb2, plugin_consumer_thread true true
        ([GetEvent.item ⟨0, "hi"⟩ (some ⟨1, "HI"⟩) true] ++
          [GetEvent.item ⟨2, "<END>"⟩ none true]) =
      plugin_consumer_thread true true
        ([GetEvent.item ⟨0, "hi"⟩ (some ⟨1, "HI"⟩) true] ++
          [GetEvent.item ⟨2, "<END>"⟩ tb2 true])) ∧
    (plugin_consumer_thread true true
        ([GetEvent.item ⟨0, "hi"⟩ (some ⟨1, "HI"⟩) true] ++
          [GetEvent.item ⟨2, "<END>"⟩ none true])).exited = true ∧
    (plugin_consumer_thread true true
        ([GetEvent.item ⟨0, "hi"⟩ (some ⟨1, "HI"⟩) true] ++
          [GetEvent.item ⟨2, "<END>"⟩ none true])).signaled = true ∧
    (true = true → true = true →
      ((plugin_consumer_thread true true
          ([GetEvent.item ⟨0, "hi"⟩ (some ⟨1, "HI"⟩) true] ++
            [GetEvent.item ⟨2, "<END>"⟩ none true])).sent.map
          Buffer.content).countP (fun s0 => is_end s0) = (if true then 1 else 0) ∧
      (true = false →
        (2 : Nat) ∈ (plugin_consumer_thread true true
          ([GetEvent.item ⟨0, "hi"⟩ (some ⟨1, "HI"⟩) true] ++
            [GetEvent.item ⟨2, "<END>"⟩ none true])).freed)) ∧
    (¬(true = true ∧ true = true) →
      (plugin_consumer_thread true true
          ([GetEvent.item ⟨0, "hi"⟩ (some ⟨1, "HI"⟩) true] ++
            [GetEvent.item ⟨2, "<END>"⟩ none true])).sent = [] ∧
      (2 : Nat) ∈ (plugin_consumer_thread true true
          ([GetEvent.item ⟨0, "hi"⟩ (some ⟨1, "HI"⟩) true] ++
            [GetEvent.item ⟨2, "<END>"⟩ none true])).freed) ∧
    (∀ (ts : List (String → Option String)) (ps : List String),
      ts ≠ [] →
      (∀ t ∈ ts, ∀ s o, t s = some o → is_end o = false) →
      (∀ p ∈ ps, is_end p = false) →
      chainSentinelCounts ts (ps ++ [END_SENTINEL]) =
        List.replicate (ts.length - 1) 1 ++ [0]) :=
  claim_C5_sentinel_traversal true true
    [GetEvent.item ⟨0, "hi"⟩ (some ⟨1, "HI"⟩) true]
    ⟨2, "<END>"⟩ none true
    (by
      intro e he
      simp at he
      subst he
      simp [PayloadEvent, is_end, END_SENTINEL])
    (by
      intro e he
      simp at he
      subst he
      simp [NonSentinelOut, is_end, END_SENTINEL])
    (by decide)

/-- C10: `plugin_consumer_thread` treats a NULL return from
`consumer_producer_get` by retrying the get (the `continue` at
plugin_common.c lines 37-39), never by exiting — so on a queue that only
ever yields NULL (finished and empty without a sentinel) the worker loops
forever: after any number of NULL gets it has not exited, not signalled,
freed nothing and forwarded nothing. -/
theorem claim_C10_worker_never_exits_on_noitem (attached hasNext : Bool) :
    (∀ evs, plugin_consumer_thread attached hasNext (.nullItem :: evs) =
      plugin_consumer_thread attached hasNext evs) ∧
    (∀ n, plugin_consumer_thread attached hasNext (List.replicate n .nullItem) =
      { freed := [], sent := [], exited := false, signaled := false }) := by
  refine ⟨fun evs => rfl, ?_⟩
  intro n
  induction n with
  | zero => rfl
  | succ n ih =>
    rw [List.replicate_succ]
    simpa [plugin_consumer_thread] using ih

/-!
## The attach protocol (`plugin_attach`, `stage4_attach_plugins`)
-/

/-- Stage context fields driving the attach protocol (plugin_common.h);
`next_place_work` identifies a downstream `place_work` capability by the
index of the stage it belongs to (`none` is a NULL pointer). -/
structure plugin_context_t where
  initialized : Bool
  finished : Bool
  attached : Bool
  next_place_work : Option Nat
deriving DecidableEq

/-- `plugin_attach` (plugin_common.c lines 517-543): logged no-op before
init, after finish or on double attach; otherwise store the downstream hook
(NULL would mean terminal) and mark `attached`. -/
def plugin_attach (ctx : plugin_context_t) (next : Option Nat) : plugin_context_t :=
  if ctx.initialized ≠ true then ctx
  else if ctx.finished = true then ctx
  else if ctx.attached = true then ctx
  else { ctx with next_place_work := next, attached := true }

/-- `stage4_attach_plugins` (main.c lines 397-425): for a chain of at least
two stages, attach stage i to stage i+1's `place_work` for i in 0..N-2; a
single-stage chain returns without attaching anything ("Single-plugin
chain: nothing to attach"), and the loop never touches the last stage ("The
last plugin is not attached to anything"). -/
def stage4_attach_plugins (plugins : List plugin_context_t) : List plugin_context_t :=
  if plugins.length ≤ 1 then plugins
  else plugins.mapIdx (fun i ctx =>
    if i < plugins.length - 1 then plugin_attach ctx (some (i + 1)) else ctx)

/-- C6 counterexample: the controller does NOT attach the terminal stage.
For a single-stage pipeline whose stage is initialized, the attach step
leaves it untouched: `attached` is still `false` afterwards, where the claim
requires `attached = true` for every stage including the terminal one. -/
theorem claim_C6_counterexample :
    stage4_attach_plugins
        [{ initialized := true, finished := false, attached := false,
           next_place_work := none }] =
      [{ initialized := true, finished := false, attached := false,
         next_place_work := none }] ∧
    ¬ (∀ ctx ∈ stage4_attach_plugins
          [{ initialized := true, finished := false, attached := false,
             next_place_work := none }],
        ctx.attached = true) := by
  refine ⟨rfl, ?_⟩
  intro hall
  have := hall { initialized := true, finished := false, attached := false,
                 next_place_work := none } (by decide)
  cases this

/-- C6 (amended): during startup the controller attaches stage i to stage
i+1's `place_work` for every i in 0..N-2 only; the terminal stage N-1 is
never attached — after the attach step it is unchanged, with `attached`
still false and no downstream. -/
theorem claim_C6_attach_chain (plugins : List plugin_context_t)
    (hinit : ∀ ctx ∈ plugins,
      ctx.initialized = true ∧ ctx.finished = false ∧ ctx.attached = false) :
    (stage4_attach_plugins plugins).length = plugins.length ∧
    (∀ i, i + 1 < plugins.length →
      (stage4_attach_plugins plugins)[i]? =
        (plugins[i]?).map (fun ctx =>
          { ctx with attached := true, next_place_work := some (i + 1) })) ∧
    (plugins ≠ [] →
      (stage4_attach_plugins plugins)[plugins.length - 1]? =
        plugins[plugins.length - 1]? ∧
      ∀ ctx, plugins[plugins.length - 1]? = some ctx → ctx.attached = false) := by
  by_cases hlen : plugins.length ≤ 1
  · have hs : stage4_attach_plugins plugins = plugins := by
      unfold stage4_attach_plugins
      rw [if_pos hlen]
    refine ⟨by rw [hs], ?_, ?_⟩
    · intro i hi
      omega
    · intro hne
      refine ⟨by rw [hs], ?_⟩
      intro ctx hctx
      exact (hinit ctx (List.getElem?_mem hctx)).2.2
  · have hs : stage4_attach_plugins plugins =
        plugins.mapIdx (fun i ctx =>
          if i < plugins.length - 1 then plugin_attach ctx (some (i + 1)) else ctx) := by
      unfold stage4_attach_plugins
      rw [if_neg hlen]
    refine ⟨?_, ?_, ?_⟩
    · rw [hs, List.length_mapIdx]
    · intro i hi
      rw [hs, List.getElem?_mapIdx]
      match hg : plugins[i]? with
      | none =>
        have := List.getElem?_eq_none_iff.mp hg
        omega
      | some ctx =>
        have hmem : ctx ∈ plugins := List.getElem?_mem hg
        obtain ⟨h1, h2, h3⟩ := hinit ctx hmem
        show some _ = some _
        dsimp only
        rw [if_pos (by omega)]
        unfold plugin_attach
        rw [if_neg (by simp [h1]), if_neg (by simp [h2]), if_neg (by simp [h3])]
    · intro hne
      have hpos : 0 < plugins.length := List.length_pos.mpr hne
      refine ⟨?_, ?_⟩
      · rw [hs, List.getElem?_mapIdx]
        match hg : plugins[plugins.length - 1]? with
        | none => rfl
        | some ctx =>
          show some _ = some _
          dsimp only
          rw [if_neg (by omega)]
      · intro ctx hctx
        exact (hinit ctx (List.getElem?_mem hctx)).2.2

/-- A two-stage pipeline right after successful stage-3 initialization. -/
def demo_stages : List plugin_context_t :=
  [{ initialized := true, finished := false, attached := false,
     next_place_work := none },
   { initialized := true, finished := false, attached := false,
     next_place_work := none }]

theorem claim_C6_attach_chain_witness :
    (stage4_attach_plugins demo_stages).length = demo_stages.length ∧
    (∀ i, i + 1 < demo_stages.length →
      (stage4_attach_plugins demo_stages)[i]? =
        (demo_stages[i]?).map (fun ctx =>
          { ctx with attached := true, next_place_work := some (i + 1) })) ∧
    (demo_stages ≠ [] →
      (stage4_attach_plugins demo_stages)[demo_stages.length - 1]? =
        demo_stages[demo_stages.length - 1]? ∧
      ∀ ctx, demo_stages[demo_stages.length - 1]? = some ctx →
        ctx.attached = false) :=
  claim_C6_attach_chain demo_stages
    (by
      intro ctx hctx
      simp [demo_stages] at hctx
      subst hctx
      exact ⟨rfl, rfl, rfl⟩)

end Pipeline
